import Mathlib

/-!
# Edge processor (jni/src/edge_processor.cpp)

A shallow embedding of the native frame processor: the `ProcessorContext`
with its three scratch matrices, `fromHandle`, `nativeCreate`,
`nativeDestroy` and `nativeProcess`.

The native code is glue around OpenCV.  The OpenCV routines it calls are
embedded next to it:

* matrix headers, `cv::Mat(rows, cols, type)` and `Mat::create`, after
  `modules/core/src/matrix.cpp`;
* `cv::cvtColor` for `COLOR_YUV2BGR_NV21`, `COLOR_BGR2RGBA` and
  `COLOR_GRAY2RGBA`, after the reference (non-SIMD) code of
  `modules/imgproc/src/color.hpp`, `color_yuv.simd.hpp` and
  `color_rgb.simd.hpp`, in exact integer arithmetic;
* `COLOR_BGR2GRAY`, `cv::GaussianBlur` and `cv::Canny` only through their
  effect on the destination header; their pixel arithmetic is a parameter
  (`ImgProc`).

Conventions.  `jint` and `jlong` values are `Int`; bytes are `Nat`.  Memory
allocation is assumed to succeed.  A freshly allocated pixel buffer is
modelled as zero-filled (its real contents are indeterminate).  A call of
`nativeProcess` yields a `Result`: what the call did (`Ret`), the world and
the output region it leaves.  For a `Ret.fault` the world and the output
region are those at the entry of the library call that faulted.
-/

namespace EdgeProcessor

/-! ## Matrices -/

/-- A `cv::Mat` of 8-bit elements: its header (`rows`, `cols`, number of
channels), the identity of the pixel buffer it owns (`none` when it has no
data) and the bytes of that buffer, row-major without padding. -/
structure Mat where
  rows : Nat
  cols : Nat
  channels : Nat
  buf : Option Nat
  data : List Nat
  deriving DecidableEq, Repr

/-- The default-constructed `cv::Mat()`. -/
def Mat.header : Mat := ⟨0, 0, 1, none, []⟩

/-- The test `Mat::empty()`: `data == 0 || total() == 0`. -/
def Mat.empty (m : Mat) : Bool := m.buf.isNone || m.rows * m.cols == 0

/-- What can go wrong after the precondition checks. -/
inductive Fault where
  /-- a `cv::Exception` leaves the native function -/
  | cvException
  /-- a read past the input array or a write past the output region -/
  | outOfBounds
  /-- the handle is neither null nor the address of a live context -/
  | wildPointer
  deriving DecidableEq, Repr

/-- The four `logError` exits of `nativeProcess`. -/
inductive Rejection where
  /-- logged as "Processor context is null." -/
  | contextNull
  /-- logged as "Output buffer is null." -/
  | outputNull
  /-- logged as "Failed to get output buffer address." -/
  | outputAddress
  /-- logged as "Failed to map NV21 array." -/
  | inputMapping
  deriving DecidableEq, Repr

/-- The constructor `cv::Mat(rows, cols, type)`: throws on a negative size, allocates a new
pixel buffer when `total() > 0`.  `allocs` counts the pixel buffers allocated
so far and names the next one. -/
def Mat.alloc (allocs : Nat) (rows cols : Int) (channels : Nat) : Except Fault (Mat × Nat) :=
  if rows < 0 ∨ cols < 0 then .error .cvException
  else if rows.toNat * cols.toNat = 0 then
    .ok (⟨rows.toNat, cols.toNat, channels, none, []⟩, allocs)
  else
    .ok (⟨rows.toNat, cols.toNat, channels, some allocs,
          List.replicate (rows.toNat * cols.toNat * channels) 0⟩, allocs + 1)

/-- The call `Mat::create(rows, cols, type)`: nothing happens when the matrix already
has data of that size and type; otherwise the old buffer is released and a new
one allocated. -/
def Mat.create (m : Mat) (allocs : Nat) (rows cols channels : Nat) : Mat × Nat :=
  if m.buf.isSome ∧ m.channels = channels ∧ m.rows = rows ∧ m.cols = cols then (m, allocs)
  else if rows * cols = 0 then (⟨rows, cols, channels, none, []⟩, allocs)
  else (⟨rows, cols, channels, some allocs, List.replicate (rows * cols * channels) 0⟩,
        allocs + 1)

/-! ## Colour conversion -/

def ITUR_BT_601_CY : Int := 1220542
def ITUR_BT_601_CUB : Int := 2116026
def ITUR_BT_601_CUG : Int := -409993
def ITUR_BT_601_CVG : Int := -852492
def ITUR_BT_601_CVR : Int := 1673527
def ITUR_BT_601_SHIFT : Nat := 20

/-- The cast `saturate_cast<uchar>(int)`. -/
def saturate_cast (x : Int) : Nat :=
  if x < 0 then 0 else if 255 < x then 255 else x.toNat

/-- The routine `uvToRGBuv`: the chroma contributions `(ruv, guv, buv)`. -/
def uvToRGBuv (u v : Nat) : Int × Int × Int :=
  let uu : Int := (u : Int) - 128
  let vv : Int := (v : Int) - 128
  ((1 <<< (ITUR_BT_601_SHIFT - 1) : Int) + ITUR_BT_601_CVR * vv,
   (1 <<< (ITUR_BT_601_SHIFT - 1) : Int) + ITUR_BT_601_CVG * vv + ITUR_BT_601_CUG * uu,
   (1 <<< (ITUR_BT_601_SHIFT - 1) : Int) + ITUR_BT_601_CUB * uu)

/-- The routine `yRGBuvToRGBA` without the alpha: the colour `(r, g, b)` of one pixel. -/
def yuvToRgb (y u v : Nat) : Nat × Nat × Nat :=
  let (ruv, guv, buv) := uvToRGBuv u v
  let yy : Int := max 0 ((y : Int) - 16) * ITUR_BT_601_CY
  (saturate_cast ((yy + ruv) >>> ITUR_BT_601_SHIFT),
   saturate_cast ((yy + guv) >>> ITUR_BT_601_SHIFT),
   saturate_cast ((yy + buv) >>> ITUR_BT_601_SHIFT))

/-- Channel `k` of the BGR pixel (`bIdx = 0`): `row[0] = b`, `row[1] = g`,
`row[2] = r`. -/
def bgrChannel (k y u v : Nat) : Nat :=
  match k with
  | 0 => (yuvToRgb y u v).2.2
  | 1 => (yuvToRgb y u v).2.1
  | _ => (yuvToRgb y u v).1

/-- Luma of pixel `(r, c)` in an NV21 frame of width `cols`. -/
def lumaAt (src : List Nat) (cols r c : Nat) : Nat := src.getD (r * cols + c) 0

/-- The V sample of pixel `(r, c)`: chroma rows start after `rows` luma rows,
one chroma row per two luma rows, V first in each interleaved pair
(`uIdx = 1`). -/
def chromaVAt (src : List Nat) (rows cols r c : Nat) : Nat :=
  src.getD (rows * cols + (r / 2) * cols + 2 * (c / 2)) 0

/-- The U sample of pixel `(r, c)`. -/
def chromaUAt (src : List Nat) (rows cols r c : Nat) : Nat :=
  src.getD (rows * cols + (r / 2) * cols + 2 * (c / 2) + 1) 0

/-- The bytes `hal::cvtTwoPlaneYUVtoBGR` writes for a `rows × cols`
destination with three channels. -/
def nv21ToBgr (rows cols : Nat) (src : List Nat) : List Nat :=
  (List.range (rows * cols * 3)).map fun k =>
    let r := k / 3 / cols
    let c := k / 3 % cols
    bgrChannel (k % 3) (lumaAt src cols r c) (chromaUAt src rows cols r c)
      (chromaVAt src rows cols r c)

/-- The bytes of `COLOR_BGR2RGBA` for `n` pixels: blue and red swapped, alpha
`255`. -/
def bgr2rgbaBytes (n : Nat) (src : List Nat) : List Nat :=
  (List.range (n * 4)).map fun j =>
    if j % 4 = 3 then 255 else src.getD (3 * (j / 4) + (2 - j % 4)) 0

/-- The bytes of `COLOR_GRAY2RGBA` for `n` pixels: the gray value three times,
alpha `255`. -/
def gray2rgbaBytes (n : Nat) (src : List Nat) : List Nat :=
  (List.range (n * 4)).map fun j =>
    if j % 4 = 3 then 255 else src.getD (j / 4) 0

/-- The pixel arithmetic of `COLOR_BGR2GRAY`, `cv::GaussianBlur` and
`cv::Canny`, each a map from the source bytes (with its `rows` and `cols`) to
the `rows * cols` bytes of the single-channel destination. -/
structure ImgProc where
  bgr2gray : Nat → Nat → List Nat → List Nat
  gaussianBlur : Nat → Nat → Nat × Nat → ℚ → List Nat → List Nat
  canny : Nat → Nat → ℚ → ℚ → List Nat → List Nat
  bgr2gray_length : ∀ r c d, (bgr2gray r c d).length = r * c
  gaussianBlur_length : ∀ r c k s d, (gaussianBlur r c k s d).length = r * c
  canny_length : ∀ r c lo hi d, (canny r c lo hi d).length = r * c

/-- The call `cv::cvtColor(nv21, dst, COLOR_YUV2BGR_NV21)` where `nv21` is the
`srcRows × srcCols` single-channel view with step `srcCols` over the bytes
`src` of the input array. -/
def cvtColorNV21 (src : List Nat) (srcRows srcCols : Int) (dst : Mat) (allocs : Nat) :
    Except Fault (Mat × Nat) :=
  -- CV_Assert(!_src.empty())
  if srcRows ≤ 0 ∨ srcCols ≤ 0 then .error .cvException
  -- CV_Assert(sz.width % 2 == 0 && sz.height % 3 == 0)
  else if srcCols % 2 ≠ 0 ∨ srcRows % 3 ≠ 0 then .error .cvException
  else
    -- dstSz = Size(sz.width, sz.height * 2 / 3); _dst.create(dstSz, CV_8UC3)
    let dstRows := (srcRows * 2 / 3).toNat
    let dstCols := srcCols.toNat
    let (d, allocs1) := dst.create allocs dstRows dstCols 3
    -- the two planes span srcRows * srcCols bytes from the start of the array
    if src.length < srcRows.toNat * srcCols.toNat then .error .outOfBounds
    else .ok ({ d with data := nv21ToBgr dstRows dstCols src }, allocs1)

/-- The call `cv::cvtColor(src, dst, COLOR_BGR2GRAY)`. -/
def cvtColorBGR2GRAY (lib : ImgProc) (src dst : Mat) (allocs : Nat) : Except Fault (Mat × Nat) :=
  if src.empty then .error .cvException
  else if src.channels ≠ 3 ∧ src.channels ≠ 4 then .error .cvException
  else
    let (d, allocs1) := dst.create allocs src.rows src.cols 1
    .ok ({ d with data := lib.bgr2gray src.rows src.cols src.data }, allocs1)

/-- The call `cv::GaussianBlur(src, dst, ksize, sigmaX)`. -/
def GaussianBlur (lib : ImgProc) (src dst : Mat) (ksize : Nat × Nat) (sigmaX : ℚ)
    (allocs : Nat) : Except Fault (Mat × Nat) :=
  if src.empty then .error .cvException
  else
    let (d, allocs1) := dst.create allocs src.rows src.cols src.channels
    .ok ({ d with data := lib.gaussianBlur src.rows src.cols ksize sigmaX src.data }, allocs1)

/-- The call `cv::Canny(image, edges, threshold1, threshold2)`. -/
def Canny (lib : ImgProc) (image edges : Mat) (threshold1 threshold2 : ℚ) (allocs : Nat) :
    Except Fault (Mat × Nat) :=
  if image.empty then .error .cvException
  else
    let (d, allocs1) := edges.create allocs image.rows image.cols 1
    .ok ({ d with data := lib.canny image.rows image.cols threshold1 threshold2 image.data },
         allocs1)

/-- The call `cv::cvtColor(src, rgba, code)` for `rgba = cv::Mat(height, width,
CV_8UC4, outputPtr)` and a conversion `code` to four channels given by
`bytes`, `scn` being the channel counts it accepts.  `_dst.create` keeps the
header over the output region exactly when the sizes agree; otherwise `rgba`
gets a buffer of its own and the output region is not written. -/
def cvtColorIntoOutput (bytes : Nat → List Nat → List Nat) (scn : Nat → Bool) (src : Mat)
    (height width : Int) (out : List Nat) : Except Fault (List Nat) :=
  if src.empty then .error .cvException
  else if scn src.channels = false then .error .cvException
  else if (src.rows : Int) = height ∧ (src.cols : Int) = width then
    let px := bytes (src.rows * src.cols) src.data
    if out.length < px.length then .error .outOfBounds
    else .ok (px ++ out.drop px.length)
  else .ok out

/-! ## The native bridge -/

/-- The scratch matrices of one processor. -/
structure ProcessorContext where
  bgr : Mat
  gray : Mat
  edges : Mat
  deriving DecidableEq, Repr

/-- The native heap: the live contexts by address, and the number of pixel
buffers allocated so far. -/
structure World where
  heap : Int → Option ProcessorContext
  allocs : Nat

/-- A `jbyteArray`: its bytes, and whether `GetByteArrayElements` succeeds. -/
structure JByteArray where
  bytes : List Nat
  mappable : Bool
  deriving DecidableEq, Repr

/-- A `java.nio.ByteBuffer`: `GetDirectBufferAddress` gives the address of
`bytes` when the buffer is direct and null otherwise. -/
structure ByteBuffer where
  direct : Bool
  bytes : List Nat
  deriving DecidableEq, Repr

/-- How a call of `nativeProcess` ends. -/
inductive Ret where
  /-- the exit `return 0.f` after `logError` -/
  | zero (why : Rejection)
  /-- the exit `return elapsed` -/
  | elapsed
  /-- no return -/
  | fault (f : Fault)
  deriving DecidableEq, Repr

/-- The outcome of a call: how it ended, the world and the output buffer. -/
structure Result where
  ret : Ret
  world : World
  out : Option ByteBuffer

/-- The context `new ProcessorContext()` builds: three default matrices. -/
def ProcessorContext.fresh : ProcessorContext := ⟨Mat.header, Mat.header, Mat.header⟩

/-- The function `fromHandle`: the handle reinterpreted as an address (`0` is null). -/
def fromHandle (handle : Int) : Int := handle

/-- The entry point `nativeCreate`: `addr` is what `new (std::nothrow)` returned, `0` when it
failed. -/
def nativeCreate (w : World) (addr : Int) : World × Int :=
  if addr = 0 then (w, 0)
  else ({ w with heap := Function.update w.heap addr (some ProcessorContext.fresh) }, addr)

/-- The entry point `nativeDestroy`. -/
def nativeDestroy (w : World) (handle : Int) : World :=
  if fromHandle handle = 0 then w
  else { w with heap := Function.update w.heap (fromHandle handle) none }

/-- Lines 79-83: the test of the reallocation branch. -/
def needsRealloc (ctx : ProcessorContext) (width height : Int) : Bool :=
  ctx.bgr.empty || decide ((ctx.bgr.cols : Int) ≠ width) || decide ((ctx.bgr.rows : Int) ≠ height)

/-- Lines 79-83: the three matrices are replaced when `bgr` is empty or of
another size. -/
def sizeBuffers (ctx : ProcessorContext) (allocs : Nat) (width height : Int) :
    Except Fault (ProcessorContext × Nat) :=
  if needsRealloc ctx width height then do
    let (bgr, a1) ← Mat.alloc allocs height width 3
    let (gray, a2) ← Mat.alloc a1 height width 1
    let (edges, a3) ← Mat.alloc a2 height width 1
    pure (⟨bgr, gray, edges⟩, a3)
  else pure (ctx, allocs)

/-- The rows of the NV21 view of line 77, `height + height / 2` in C++
integer arithmetic. -/
def nv21Rows (height : Int) : Int := height + height.tdiv 2

/-- The offset of element `(r, c)` of the NV21 view of line 77 from the start
of the input array: the view has step `width` and one byte per element. -/
def nv21ViewIndex (width r c : Int) : Int := r * width + c

/-- The entry point `Java_com_example_rtedge_nativebridge_EdgeProcessor_nativeProcess`.
The clock readings of lines 75 and 98-99 are not modelled: a call that reaches
line 102 yields `Ret.elapsed`. -/
def nativeProcess (lib : ImgProc) (w : World) (handle : Int) (nv21Array : JByteArray)
    (width height : Int) (outputBuffer : Option ByteBuffer) (edgesOnly : Bool) : Result :=
  -- lines 51-55
  let context := fromHandle handle
  if context = 0 then ⟨.zero .contextNull, w, outputBuffer⟩ else
  -- lines 57-60
  match outputBuffer with
  | none => ⟨.zero .outputNull, w, none⟩
  | some ob =>
  -- lines 62-66
  if ob.direct = false then ⟨.zero .outputAddress, w, some ob⟩ else
  -- lines 68-73; the length is read and not used again
  let _totalBytes := nv21Array.bytes.length
  if nv21Array.mappable = false then ⟨.zero .inputMapping, w, some ob⟩ else
  -- line 79: the first use of the context
  match w.heap context with
  | none => ⟨.fault .wildPointer, w, some ob⟩
  | some ctx =>
  -- lines 79-83
  match sizeBuffers ctx w.allocs width height with
  | .error f => ⟨.fault f, w, some ob⟩
  | .ok (ctx1, a1) =>
  let w1 : World := ⟨Function.update w.heap context (some ctx1), a1⟩
  -- lines 77 and 85
  match cvtColorNV21 nv21Array.bytes (nv21Rows height) width ctx1.bgr a1 with
  | .error f => ⟨.fault f, w1, some ob⟩
  | .ok (bgr, a2) =>
  let ctx2 : ProcessorContext := { ctx1 with bgr := bgr }
  let w2 : World := ⟨Function.update w.heap context (some ctx2), a2⟩
  if edgesOnly then
    -- line 88
    match cvtColorBGR2GRAY lib ctx2.bgr ctx2.gray a2 with
    | .error f => ⟨.fault f, w2, some ob⟩
    | .ok (gray, a3) =>
    let ctx3 : ProcessorContext := { ctx2 with gray := gray }
    let w3 : World := ⟨Function.update w.heap context (some ctx3), a3⟩
    -- line 89
    match GaussianBlur lib ctx3.gray ctx3.gray (5, 5) 1.4 a3 with
    | .error f => ⟨.fault f, w3, some ob⟩
    | .ok (gray1, a4) =>
    let ctx4 : ProcessorContext := { ctx3 with gray := gray1 }
    let w4 : World := ⟨Function.update w.heap context (some ctx4), a4⟩
    -- line 90
    match Canny lib ctx4.gray ctx4.edges 50 150 a4 with
    | .error f => ⟨.fault f, w4, some ob⟩
    | .ok (edges, a5) =>
    let ctx5 : ProcessorContext := { ctx4 with edges := edges }
    let w5 : World := ⟨Function.update w.heap context (some ctx5), a5⟩
    -- lines 91-92
    match cvtColorIntoOutput gray2rgbaBytes (fun n => n == 1) ctx5.edges height width ob.bytes with
    | .error f => ⟨.fault f, w5, some ob⟩
    | .ok bytes => ⟨.elapsed, w5, some { ob with bytes := bytes }⟩
  else
    -- lines 94-95
    match cvtColorIntoOutput bgr2rgbaBytes (fun n => n == 3 || n == 4) ctx2.bgr height width
        ob.bytes with
    | .error f => ⟨.fault f, w2, some ob⟩
    | .ok bytes => ⟨.elapsed, w2, some { ob with bytes := bytes }⟩

/-! ## Sequences of calls -/

/-- One call of `nativeProcess`. -/
structure Call where
  handle : Int
  nv21Array : JByteArray
  width : Int
  height : Int
  outputBuffer : Option ByteBuffer
  edgesOnly : Bool

/-- The call made in a world. -/
def Call.run (lib : ImgProc) (w : World) (c : Call) : Result :=
  nativeProcess lib w c.handle c.nv21Array c.width c.height c.outputBuffer c.edgesOnly

/-- Whether the call came back to its caller. -/
def Ret.returned : Ret → Bool
  | .fault _ => false
  | _ => true

/-- The world after a sequence of calls, each of which came back to its
caller (with the zero of a rejection or with the elapsed time). -/
def runCalls (lib : ImgProc) (w : World) : List Call → Option World
  | [] => some w
  | c :: cs => if (c.run lib w).ret.returned then runCalls lib (c.run lib w).world cs else none

/-- The checks of lines 51-73 all pass: the handle is not null, the output
buffer is not null and has a direct address, the input array can be mapped. -/
def Call.passesChecks (c : Call) : Bool :=
  decide (fromHandle c.handle ≠ 0) &&
  (match c.outputBuffer with
   | none => false
   | some ob => ob.direct) &&
  c.nv21Array.mappable

/-- The `(width, height)` of the most recent call on `handle` that passed the
checks, `init` when there is none. -/
def lastFrame (handle : Int) (init : Option (Int × Int)) (cs : List Call) : Option (Int × Int) :=
  cs.foldl (fun acc c => if c.handle = handle ∧ c.passesChecks = true
    then some (c.width, c.height) else acc) init

/-! ## Predicates on matrices -/

/-- The matrix has data of the given size and channel count. -/
def Mat.Sized (m : Mat) (h w ch : Nat) : Prop :=
  m.rows = h ∧ m.cols = w ∧ m.channels = ch ∧ m.buf.isSome = true

/-- Same header: size, channel count and pixel buffer. -/
def Mat.SameHeader (m n : Mat) : Prop :=
  m.rows = n.rows ∧ m.cols = n.cols ∧ m.channels = n.channels ∧ m.buf = n.buf

/-- The three scratch matrices hold data for a frame of `ht` rows and `wd`
columns. -/
def Configured (ctx : ProcessorContext) (ht wd : Nat) : Prop :=
  ctx.bgr.Sized ht wd 3 ∧ ctx.gray.Sized ht wd 1 ∧ ctx.edges.Sized ht wd 1

/-- The state of the scratch matrices given the last frame seen: untouched
since construction, or holding data for that frame. -/
def Inv (ctx : ProcessorContext) : Option (Int × Int) → Prop
  | none => ctx = ProcessorContext.fresh
  | some (width, height) =>
    ∃ wd ht : Nat, width = wd ∧ height = ht ∧ 0 < ht * wd ∧ Configured ctx ht wd

/-! ## Concrete data -/

/-- A pixel arithmetic that yields black images, to run the embedding on
concrete frames. -/
def blankLib : ImgProc where
  bgr2gray := fun r c _ => List.replicate (r * c) 0
  gaussianBlur := fun r c _ _ _ => List.replicate (r * c) 0
  canny := fun r c _ _ _ => List.replicate (r * c) 0
  bgr2gray_length := by simp
  gaussianBlur_length := by simp
  canny_length := by simp

/-- A world without contexts. -/
def emptyWorld : World := ⟨fun _ => none, 0⟩

/-- The world after one `nativeCreate` that returned the handle `7`. -/
def liveWorld : World := (nativeCreate emptyWorld 7).1

/-- A frame of `n` bytes, all `128`. -/
def grayFrame (n : Nat) : JByteArray := ⟨List.replicate n 128, true⟩

/-- A direct output buffer of `n` zero bytes. -/
def zeroBuffer (n : Nat) : ByteBuffer := ⟨true, List.replicate n 0⟩

/-- The world after one 2x2 call on the new processor of `liveWorld`. -/
def sizedWorld : World :=
  (nativeProcess blankLib liveWorld 7 (grayFrame 6) 2 2 (some (zeroBuffer 16)) false).world

/-! ## Matrices and library calls -/

theorem nv21Rows_natCast (h : Nat) : nv21Rows (h : Int) = ((h + h / 2 : Nat) : Int) := by
  unfold nv21Rows
  rw [Int.tdiv_eq_ediv (by omega) (by omega)]
  omega

theorem Mat.create_of_sized {m : Mat} {h w ch : Nat} (hm : m.Sized h w ch) (a : Nat) :
    m.create a h w ch = (m, a) := by
  obtain ⟨h1, h2, h3, h4⟩ := hm
  simp [Mat.create, h1, h2, h3, h4]

theorem Mat.create_sized (m : Mat) (a : Nat) {h w : Nat} (ch : Nat) (hpos : 0 < h * w) :
    (m.create a h w ch).1.Sized h w ch := by
  unfold Mat.create
  split
  · rename_i hc
    exact ⟨hc.2.2.1, hc.2.2.2, hc.2.1, hc.1⟩
  · rw [if_neg (by omega)]
    exact ⟨rfl, rfl, rfl, rfl⟩

theorem Mat.Sized.not_empty {m : Mat} {h w ch : Nat} (hm : m.Sized h w ch) (hpos : 0 < h * w) :
    m.empty = false := by
  obtain ⟨h1, h2, _, h4⟩ := hm
  have : m.buf.isNone = false := by
    cases hb : m.buf <;> simp_all
  have h5 : ¬ (h * w = 0) := by omega
  simp only [Mat.empty, h1, h2, this, Bool.false_or, beq_eq_false_iff_ne, ne_eq]
  exact h5

theorem cvtColorNV21_ok (src : List Nat) {h w : Nat} (hh : 0 < h) (hw : 0 < w)
    (hhe : h % 2 = 0) (hwe : w % 2 = 0) (hlen : (h + h / 2) * w ≤ src.length)
    (dst : Mat) (a : Nat) :
    cvtColorNV21 src (nv21Rows h) w dst a =
      .ok ({ (dst.create a h w 3).1 with data := nv21ToBgr h w src }, (dst.create a h w 3).2) := by
  rw [nv21Rows_natCast]
  unfold cvtColorNV21
  have e1 : (((h + h / 2 : Nat) : Int) * 2 / 3).toNat = h := by omega
  rw [if_neg (by omega), if_neg (by omega)]
  simp only [e1, Int.toNat_ofNat]
  rw [if_neg (by omega)]

theorem Mat.Sized.with_data {m : Mat} {h w ch : Nat} (hm : m.Sized h w ch) (d : List Nat) :
    Mat.Sized { m with data := d } h w ch := hm

theorem Mat.alloc_pos (a : Nat) {h w : Nat} (ch : Nat) (hpos : 0 < h * w) :
    Mat.alloc a (h : Int) (w : Int) ch =
      .ok (⟨h, w, ch, some a, List.replicate (h * w * ch) 0⟩, a + 1) := by
  unfold Mat.alloc
  rw [if_neg (by omega)]
  simp only [Int.toNat_ofNat]
  rw [if_neg (by omega)]

theorem sizeBuffers_pos (ctx : ProcessorContext) (a : Nat) {h w : Nat} (hpos : 0 < h * w) :
    sizeBuffers ctx a (w : Int) (h : Int) =
      .ok (if needsRealloc ctx w h then
            (⟨⟨h, w, 3, some a, List.replicate (h * w * 3) 0⟩,
              ⟨h, w, 1, some (a + 1), List.replicate (h * w * 1) 0⟩,
              ⟨h, w, 1, some (a + 2), List.replicate (h * w * 1) 0⟩⟩, a + 3)
          else (ctx, a)) := by
  unfold sizeBuffers
  split
  · simp only [Mat.alloc_pos _ _ hpos]
    rfl
  · rfl

theorem cvtColorBGR2GRAY_ok (lib : ImgProc) {src : Mat} {h w : Nat} (hs : src.Sized h w 3)
    (hpos : 0 < h * w) (dst : Mat) (a : Nat) :
    cvtColorBGR2GRAY lib src dst a =
      .ok ({ (dst.create a h w 1).1 with data := lib.bgr2gray h w src.data },
           (dst.create a h w 1).2) := by
  unfold cvtColorBGR2GRAY
  rw [hs.not_empty hpos]
  obtain ⟨h1, h2, h3, _⟩ := hs
  simp [h1, h2, h3]

theorem GaussianBlur_ok (lib : ImgProc) {src : Mat} {h w ch : Nat} (hs : src.Sized h w ch)
    (hpos : 0 < h * w) (ksize : Nat × Nat) (sigmaX : ℚ) (a : Nat) :
    GaussianBlur lib src src ksize sigmaX a =
      .ok ({ src with data := lib.gaussianBlur h w ksize sigmaX src.data }, a) := by
  unfold GaussianBlur
  rw [hs.not_empty hpos]
  have hc : src.create a src.rows src.cols src.channels = (src, a) :=
    Mat.create_of_sized ⟨rfl, rfl, rfl, hs.2.2.2⟩ a
  simp only [hc, Bool.false_eq_true, if_false]
  rw [hs.1, hs.2.1]

theorem Canny_ok (lib : ImgProc) {image : Mat} {h w ch : Nat} (hs : image.Sized h w ch)
    (hpos : 0 < h * w) (edges : Mat) (t1 t2 : ℚ) (a : Nat) :
    Canny lib image edges t1 t2 a =
      .ok ({ (edges.create a h w 1).1 with data := lib.canny h w t1 t2 image.data },
           (edges.create a h w 1).2) := by
  unfold Canny
  rw [hs.not_empty hpos]
  obtain ⟨h1, h2, _, _⟩ := hs
  simp [h1, h2]

theorem cvtColorIntoOutput_ok (bytes : Nat → List Nat → List Nat) (scn : Nat → Bool) {src : Mat}
    {h w ch : Nat} (hs : src.Sized h w ch) (hpos : 0 < h * w) (hscn : scn ch = true)
    (out : List Nat) (hcap : (bytes (h * w) src.data).length ≤ out.length) :
    cvtColorIntoOutput bytes scn src (h : Int) (w : Int) out =
      .ok (bytes (h * w) src.data ++ out.drop (bytes (h * w) src.data).length) := by
  unfold cvtColorIntoOutput
  rw [hs.not_empty hpos]
  obtain ⟨h1, h2, h3, _⟩ := hs
  simp only [h1, h2, h3, hscn]
  simp
  omega

theorem bgr2rgbaBytes_length (n : Nat) (src : List Nat) : (bgr2rgbaBytes n src).length = n * 4 := by
  simp [bgr2rgbaBytes]

theorem gray2rgbaBytes_length (n : Nat) (src : List Nat) :
    (gray2rgbaBytes n src).length = n * 4 := by
  simp [gray2rgbaBytes]

/-! ## The two paths of a call on an even frame -/

theorem sizeBuffers_ok (ctx : ProcessorContext) (a : Nat) {h w : Nat} (hpos : 0 < h * w) :
    ∃ ctx1 a1, sizeBuffers ctx a (w : Int) (h : Int) = .ok (ctx1, a1) := by
  rw [sizeBuffers_pos ctx a hpos]
  exact ⟨_, _, rfl⟩

theorem cvtColorNV21_ok_sized (src : List Nat) {h w : Nat} (hh : 0 < h) (hw : 0 < w)
    (hhe : h % 2 = 0) (hwe : w % 2 = 0) (hlen : (h + h / 2) * w ≤ src.length)
    (dst : Mat) (a : Nat) :
    ∃ m a1, cvtColorNV21 src (nv21Rows h) w dst a = .ok (m, a1) ∧ m.Sized h w 3 ∧
      m.data = nv21ToBgr h w src :=
  ⟨_, _, cvtColorNV21_ok src hh hw hhe hwe hlen dst a,
    (Mat.create_sized dst a 3 (Nat.mul_pos hh hw)).with_data _, rfl⟩

theorem cvtColorBGR2GRAY_ok_sized (lib : ImgProc) {src : Mat} {h w : Nat} (hs : src.Sized h w 3)
    (hpos : 0 < h * w) (dst : Mat) (a : Nat) :
    ∃ m a1, cvtColorBGR2GRAY lib src dst a = .ok (m, a1) ∧ m.Sized h w 1 ∧
      m.data = lib.bgr2gray h w src.data :=
  ⟨_, _, cvtColorBGR2GRAY_ok lib hs hpos dst a, (Mat.create_sized dst a 1 hpos).with_data _, rfl⟩

theorem GaussianBlur_ok_sized (lib : ImgProc) {src : Mat} {h w ch : Nat} (hs : src.Sized h w ch)
    (hpos : 0 < h * w) (ksize : Nat × Nat) (sigmaX : ℚ) (a : Nat) :
    ∃ m, GaussianBlur lib src src ksize sigmaX a = .ok (m, a) ∧ m.Sized h w ch ∧
      m.data = lib.gaussianBlur h w ksize sigmaX src.data :=
  ⟨_, GaussianBlur_ok lib hs hpos ksize sigmaX a, hs.with_data _, rfl⟩

theorem Canny_ok_sized (lib : ImgProc) {image : Mat} {h w ch : Nat} (hs : image.Sized h w ch)
    (hpos : 0 < h * w) (edges : Mat) (t1 t2 : ℚ) (a : Nat) :
    ∃ m a1, Canny lib image edges t1 t2 a = .ok (m, a1) ∧ m.Sized h w 1 ∧
      m.data = lib.canny h w t1 t2 image.data :=
  ⟨_, _, Canny_ok lib hs hpos edges t1 t2 a, (Mat.create_sized edges a 1 hpos).with_data _, rfl⟩

theorem nativeProcess_passthrough (lib : ImgProc) (w : World) (handle : Int)
    (ctx : ProcessorContext) (bytes : List Nat) {wd ht : Nat} (ob : ByteBuffer)
    (hlive : handle ≠ 0) (hctx : w.heap handle = some ctx) (hdir : ob.direct = true)
    (hwd : 0 < wd) (hht : 0 < ht) (hwe : wd % 2 = 0) (hhe : ht % 2 = 0)
    (hlen : (ht + ht / 2) * wd ≤ bytes.length) (hcap : ht * wd * 4 ≤ ob.bytes.length) :
    ∃ w1, nativeProcess lib w handle ⟨bytes, true⟩ wd ht (some ob) false =
      ⟨.elapsed, w1, some ⟨true, bgr2rgbaBytes (ht * wd) (nv21ToBgr ht wd bytes) ++
        ob.bytes.drop (ht * wd * 4)⟩⟩ := by
  have hpos : 0 < ht * wd := Nat.mul_pos hht hwd
  obtain ⟨direct, obytes⟩ := ob
  simp only at hdir hcap
  subst hdir
  obtain ⟨ctx1, a1, hs⟩ := sizeBuffers_ok ctx w.allocs hpos
  obtain ⟨bgr, a2, hc, hb, hd⟩ := cvtColorNV21_ok_sized bytes hht hwd hhe hwe hlen ctx1.bgr a1
  have ho := cvtColorIntoOutput_ok bgr2rgbaBytes (fun n => n == 3 || n == 4) hb hpos rfl obytes
    (by rw [bgr2rgbaBytes_length]; exact hcap)
  rw [bgr2rgbaBytes_length, hd] at ho
  simp only [nativeProcess, fromHandle, hlive, hctx, hs, hc, ho, if_false, Bool.true_eq_false,
    Bool.false_eq_true]
  exact ⟨_, rfl⟩

theorem nativeProcess_edges (lib : ImgProc) (w : World) (handle : Int)
    (ctx : ProcessorContext) (bytes : List Nat) {wd ht : Nat} (ob : ByteBuffer)
    (hlive : handle ≠ 0) (hctx : w.heap handle = some ctx) (hdir : ob.direct = true)
    (hwd : 0 < wd) (hht : 0 < ht) (hwe : wd % 2 = 0) (hhe : ht % 2 = 0)
    (hlen : (ht + ht / 2) * wd ≤ bytes.length) (hcap : ht * wd * 4 ≤ ob.bytes.length) :
    ∃ w1 ctx1, nativeProcess lib w handle ⟨bytes, true⟩ wd ht (some ob) true =
      ⟨.elapsed, w1, some ⟨true, gray2rgbaBytes (ht * wd) ctx1.edges.data ++
        ob.bytes.drop (ht * wd * 4)⟩⟩ ∧ w1.heap handle = some ctx1 ∧
        ctx1.edges.Sized ht wd 1 ∧
        ctx1.edges.data = lib.canny ht wd 50 150
          (lib.gaussianBlur ht wd (5, 5) 1.4 (lib.bgr2gray ht wd (nv21ToBgr ht wd bytes))) := by
  have hpos : 0 < ht * wd := Nat.mul_pos hht hwd
  obtain ⟨direct, obytes⟩ := ob
  simp only at hdir hcap
  subst hdir
  obtain ⟨ctx1, a1, hs⟩ := sizeBuffers_ok ctx w.allocs hpos
  obtain ⟨bgr, a2, hc, hb, hbd⟩ := cvtColorNV21_ok_sized bytes hht hwd hhe hwe hlen ctx1.bgr a1
  obtain ⟨gray, a3, hg, hgs, hgd⟩ := cvtColorBGR2GRAY_ok_sized lib hb hpos ctx1.gray a2
  obtain ⟨gray1, hg1, hgs1, hgd1⟩ := GaussianBlur_ok_sized lib hgs hpos (5, 5) 1.4 a3
  obtain ⟨edges, a5, he, hes, hed⟩ := Canny_ok_sized lib hgs1 hpos ctx1.edges 50 150 a3
  have ho := cvtColorIntoOutput_ok gray2rgbaBytes (fun n => n == 1) hes hpos rfl obytes
    (by rw [gray2rgbaBytes_length]; exact hcap)
  rw [gray2rgbaBytes_length] at ho
  simp only [nativeProcess, fromHandle, hlive, hctx, hs, hc, hg, hg1, he, ho, if_false,
    Bool.true_eq_false, Bool.false_eq_true, if_true]
  exact ⟨_, ⟨bgr, gray1, edges⟩, rfl, by simp, hes, by rw [hed, hgd1, hgd, hbd]⟩

/-! ## Pixel offsets -/

theorem pixel_div (wd r c : Nat) (hc : c < wd) : (r * wd + c) / wd = r := by
  rw [Nat.add_comm, Nat.add_mul_div_right _ _ (by omega), Nat.div_eq_of_lt hc, Nat.zero_add]

theorem pixel_mod (wd r c : Nat) (hc : c < wd) : (r * wd + c) % wd = c := by
  rw [Nat.add_comm, Nat.add_mul_mod_self_right, Nat.mod_eq_of_lt hc]

theorem pixel_lt {ht wd r c : Nat} (hr : r < ht) (hc : c < wd) : r * wd + c < ht * wd := by
  have : (r + 1) * wd ≤ ht * wd := Nat.mul_le_mul_right wd hr
  have e : (r + 1) * wd = r * wd + wd := by ring
  omega

theorem nv21ToBgr_length (h w : Nat) (src : List Nat) : (nv21ToBgr h w src).length = h * w * 3 := by
  simp [nv21ToBgr]

theorem nv21ToBgr_getD (src : List Nat) {h w r c j : Nat} (hr : r < h) (hc : c < w) (hj : j < 3) :
    (nv21ToBgr h w src).getD (3 * (r * w + c) + j) 0 =
      bgrChannel j (lumaAt src w r c) (chromaUAt src h w r c) (chromaVAt src h w r c) := by
  have hp := pixel_lt hr hc
  have hlt : 3 * (r * w + c) + j < h * w * 3 := by omega
  have e1 : (3 * (r * w + c) + j) / 3 = r * w + c := by omega
  have e2 : (3 * (r * w + c) + j) % 3 = j := by omega
  rw [List.getD_eq_getElem?_getD, List.getElem?_eq_getElem (by rw [nv21ToBgr_length]; exact hlt)]
  simp only [nv21ToBgr, List.getElem_map, List.getElem_range, Option.getD_some, e1, e2,
    pixel_div w r c hc, pixel_mod w r c hc]

theorem bgr2rgbaBytes_getElem? (src : List Nat) {n p k : Nat} (hp : p < n) (hk : k < 4) :
    (bgr2rgbaBytes n src)[4 * p + k]? =
      some (if k = 3 then 255 else src.getD (3 * p + (2 - k)) 0) := by
  have hlt : 4 * p + k < n * 4 := by omega
  have e1 : (4 * p + k) / 4 = p := by omega
  have e2 : (4 * p + k) % 4 = k := by omega
  rw [List.getElem?_eq_getElem (by rw [bgr2rgbaBytes_length]; exact hlt)]
  simp only [bgr2rgbaBytes, List.getElem_map, List.getElem_range, e1, e2]

theorem gray2rgbaBytes_getElem? (src : List Nat) {n p k : Nat} (hp : p < n) (hk : k < 4) :
    (gray2rgbaBytes n src)[4 * p + k]? = some (if k = 3 then 255 else src.getD p 0) := by
  have hlt : 4 * p + k < n * 4 := by omega
  have e1 : (4 * p + k) / 4 = p := by omega
  have e2 : (4 * p + k) % 4 = k := by omega
  rw [List.getElem?_eq_getElem (by rw [gray2rgbaBytes_length]; exact hlt)]
  simp only [gray2rgbaBytes, List.getElem_map, List.getElem_range, e1, e2]

/-! ## Headers are kept once the buffers are sized -/

theorem Mat.SameHeader.sized {m n : Mat} {h w ch : Nat} (hmn : m.SameHeader n)
    (hn : n.Sized h w ch) : m.Sized h w ch := by
  obtain ⟨h1, h2, h3, h4⟩ := hmn
  obtain ⟨g1, g2, g3, g4⟩ := hn
  exact ⟨h1.trans g1, h2.trans g2, h3.trans g3, by rw [h4]; exact g4⟩

theorem cvtColorNV21_header {src : List Nat} {ht wd : Nat} {dst m : Mat} {a a1 : Nat}
    (hd : dst.Sized ht wd 3)
    (hok : cvtColorNV21 src (nv21Rows ht) wd dst a = .ok (m, a1)) :
    m.SameHeader dst ∧ a1 = a ∧ 0 < ht ∧ 0 < wd ∧ ht % 2 = 0 ∧ wd % 2 = 0 ∧
      (ht + ht / 2) * wd ≤ src.length ∧ m.data = nv21ToBgr ht wd src := by
  rw [nv21Rows_natCast] at hok
  unfold cvtColorNV21 at hok
  split at hok
  · cases hok
  split at hok
  · cases hok
  rename_i h1 h2
  have e1 : (((ht + ht / 2 : Nat) : Int) * 2 / 3).toNat = ht := by omega
  simp only [e1, Int.toNat_ofNat, Mat.create_of_sized hd] at hok
  split at hok
  · cases hok
  rename_i h3
  simp only [Except.ok.injEq, Prod.mk.injEq] at hok
  obtain ⟨rfl, rfl⟩ := hok
  refine ⟨⟨rfl, rfl, rfl, rfl⟩, rfl, by omega, by omega, by omega, by omega, by omega, rfl⟩

theorem nativeProcess_headers (lib : ImgProc) (w : World) (handle : Int)
    (ctx ctx1 : ProcessorContext) (a1 : Nat) (nv21Array : JByteArray) {wd ht : Nat}
    (ob : ByteBuffer) (edgesOnly : Bool)
    (hlive : handle ≠ 0) (hctx : w.heap handle = some ctx) (hdir : ob.direct = true)
    (hmap : nv21Array.mappable = true)
    (hs : sizeBuffers ctx w.allocs wd ht = .ok (ctx1, a1)) (hconf : Configured ctx1 ht wd) :
    ∃ ctx2, (nativeProcess lib w handle nv21Array wd ht (some ob) edgesOnly).world.heap handle
        = some ctx2 ∧
      ctx2.bgr.SameHeader ctx1.bgr ∧ ctx2.gray.SameHeader ctx1.gray ∧
      ctx2.edges.SameHeader ctx1.edges ∧
      (nativeProcess lib w handle nv21Array wd ht (some ob) edgesOnly).world.allocs = a1 ∧
      ∀ why, (nativeProcess lib w handle nv21Array wd ht (some ob) edgesOnly).ret ≠ .zero why := by
  obtain ⟨hb, hg, he⟩ := hconf
  have refl : ∀ m : Mat, m.SameHeader m := fun m => ⟨rfl, rfl, rfl, rfl⟩
  simp only [nativeProcess, fromHandle, hlive, hdir, hmap, hctx, hs, if_false, Bool.true_eq_false]
  cases hc : cvtColorNV21 nv21Array.bytes (nv21Rows ht) wd ctx1.bgr a1 with
  | error f => exact ⟨ctx1, Function.update_same _ _ _, refl _, refl _, refl _, rfl, by simp⟩
  | ok p =>
    obtain ⟨bgr, a2⟩ := p
    obtain ⟨hh, rfl, hht, hwd, -⟩ := cvtColorNV21_header hb hc
    have hpos : 0 < ht * wd := Nat.mul_pos hht hwd
    have hb2 : bgr.Sized ht wd 3 := hh.sized hb
    cases edgesOnly with
    | false =>
      simp only [Bool.false_eq_true, if_false]
      split <;>
        exact ⟨_, Function.update_same _ _ _, hh, refl _, refl _, rfl, by simp⟩
    | true =>
      simp only [if_true, cvtColorBGR2GRAY_ok lib hb2 hpos, Mat.create_of_sized hg,
        GaussianBlur_ok lib (hg.with_data _) hpos, Canny_ok lib (hg.with_data _) hpos,
        Mat.create_of_sized he]
      split <;>
        exact ⟨_, Function.update_same _ _ _, hh, ⟨rfl, rfl, rfl, rfl⟩, ⟨rfl, rfl, rfl, rfl⟩, rfl,
          by simp⟩

/-! ## What a call that returns tells about its arguments -/

theorem Mat.alloc_ok_nonneg {a : Nat} {rows cols : Int} {ch : Nat} {p : Mat × Nat}
    (h : Mat.alloc a rows cols ch = .ok p) : 0 ≤ rows ∧ 0 ≤ cols := by
  unfold Mat.alloc at h
  split at h
  · cases h
  · omega

theorem needsRealloc_false {ctx : ProcessorContext} {width height : Int}
    (h : needsRealloc ctx width height = false) :
    ctx.bgr.empty = false ∧ (ctx.bgr.cols : Int) = width ∧ (ctx.bgr.rows : Int) = height := by
  have h1 : (ctx.bgr.empty = false ∧ (ctx.bgr.cols : Int) = width) ∧ (ctx.bgr.rows : Int) = height := by
    simpa [needsRealloc] using h
  exact ⟨h1.1.1, h1.1.2, h1.2⟩

theorem sizeBuffers_ok_nonneg {ctx : ProcessorContext} {a : Nat} {width height : Int}
    {p : ProcessorContext × Nat} (h : sizeBuffers ctx a width height = .ok p) :
    0 ≤ width ∧ 0 ≤ height := by
  unfold sizeBuffers at h
  split at h
  · cases h1 : Mat.alloc a height width 3 with
    | error f => simp [h1, bind, Except.bind] at h
    | ok q => have := Mat.alloc_ok_nonneg h1; omega
  · rename_i hn
    have := needsRealloc_false (by simpa using hn)
    omega

theorem cvtColorNV21_ok_inv {src : List Nat} {srcRows srcCols : Int} {dst : Mat} {a : Nat}
    {p : Mat × Nat} (h : cvtColorNV21 src srcRows srcCols dst a = .ok p) :
    0 < srcRows ∧ 0 < srcCols ∧ srcCols % 2 = 0 ∧ srcRows % 3 = 0 := by
  unfold cvtColorNV21 at h
  split at h
  · cases h
  split at h
  · cases h
  omega

theorem nativeProcess_elapsed_inv {lib : ImgProc} {w : World} {handle : Int}
    {nv21Array : JByteArray} {width height : Int} {outputBuffer : Option ByteBuffer}
    {edgesOnly : Bool}
    (h : (nativeProcess lib w handle nv21Array width height outputBuffer edgesOnly).ret
      = .elapsed) :
    handle ≠ 0 ∧ (∃ ob, outputBuffer = some ob ∧ ob.direct = true) ∧
      nv21Array.mappable = true ∧ (∃ ctx, w.heap handle = some ctx) ∧
      ∃ wd ht : Nat, width = wd ∧ height = ht ∧ 0 < wd ∧ 0 < ht ∧ wd % 2 = 0 ∧ ht % 2 = 0 := by
  by_cases h0 : handle = 0
  · simp [nativeProcess, fromHandle, h0] at h
  cases outputBuffer with
  | none => simp [nativeProcess, fromHandle, h0] at h
  | some ob =>
  cases hd : ob.direct with
  | false => simp [nativeProcess, fromHandle, h0, hd] at h
  | true =>
  cases hm : nv21Array.mappable with
  | false => simp [nativeProcess, fromHandle, h0, hd, hm] at h
  | true =>
  cases hc : w.heap handle with
  | none => simp [nativeProcess, fromHandle, h0, hd, hm, hc] at h
  | some ctx =>
  cases hs : sizeBuffers ctx w.allocs width height with
  | error f => simp [nativeProcess, fromHandle, h0, hd, hm, hc, hs] at h
  | ok p =>
  obtain ⟨ctx1, a1⟩ := p
  cases hv : cvtColorNV21 nv21Array.bytes (nv21Rows height) width ctx1.bgr a1 with
  | error f => simp [nativeProcess, fromHandle, h0, hd, hm, hc, hs, hv] at h
  | ok q =>
  have hnn := sizeBuffers_ok_nonneg hs
  obtain ⟨wd, rfl⟩ := Int.eq_ofNat_of_zero_le hnn.1
  obtain ⟨ht, rfl⟩ := Int.eq_ofNat_of_zero_le hnn.2
  have hi := cvtColorNV21_ok_inv hv
  rw [nv21Rows_natCast] at hi
  exact ⟨h0, ⟨ob, rfl, hd⟩, rfl, ⟨ctx, rfl⟩, wd, ht, rfl, rfl, by omega, by omega, by omega,
    by omega⟩

theorem nativeProcess_heap_other (lib : ImgProc) (w : World) (handle other : Int)
    (nv21Array : JByteArray) (width height : Int) (outputBuffer : Option ByteBuffer)
    (edgesOnly : Bool) (hne : handle ≠ other) :
    (nativeProcess lib w handle nv21Array width height outputBuffer edgesOnly).world.heap other
      = w.heap other := by
  unfold nativeProcess
  simp only [fromHandle]
  repeat' split
  all_goals first | rfl | exact Function.update_noteq (Ne.symm hne) _ _

/-! ## The invariant along a sequence of calls -/

theorem Configured.no_realloc {ctx : ProcessorContext} {ht wd : Nat}
    (hc : Configured ctx ht wd) (hpos : 0 < ht * wd) : needsRealloc ctx wd ht = false := by
  have h1 := hc.1.not_empty hpos
  obtain ⟨h2, h3, -⟩ := hc.1
  simp [needsRealloc, h1, h2, h3]

theorem sizeBuffers_configured {ctx : ProcessorContext} {last : Option (Int × Int)}
    (hinv : Inv ctx last) (a : Nat) {ht wd : Nat} (hpos : 0 < ht * wd) :
    ∃ ctx1 a1, sizeBuffers ctx a wd ht = .ok (ctx1, a1) ∧ Configured ctx1 ht wd := by
  rw [sizeBuffers_pos ctx a hpos]
  cases hn : needsRealloc ctx wd ht with
  | true => exact ⟨_, _, rfl, ⟨rfl, rfl, rfl, rfl⟩, ⟨rfl, rfl, rfl, rfl⟩, ⟨rfl, rfl, rfl, rfl⟩⟩
  | false =>
    refine ⟨ctx, a, rfl, ?_⟩
    obtain ⟨he, hcw, hrw⟩ := needsRealloc_false hn
    cases last with
    | none =>
      have : ctx = ProcessorContext.fresh := hinv
      subst this
      simp [ProcessorContext.fresh, Mat.header, Mat.empty] at he
    | some p =>
      obtain ⟨width, height⟩ := p
      obtain ⟨wd0, ht0, -, -, -, hconf⟩ := hinv
      have e1 : wd0 = wd := by have := hconf.1.2.1; omega
      have e2 : ht0 = ht := by have := hconf.1.1; omega
      subst e1 e2
      exact hconf

theorem nativeProcess_rejected (lib : ImgProc) (w : World) (c : Call)
    (h : c.passesChecks = false) :
    ∃ why, c.run lib w = ⟨.zero why, w, c.outputBuffer⟩ := by
  obtain ⟨handle, arr, width, height, out, e⟩ := c
  simp only [Call.passesChecks, fromHandle] at h
  simp only [Call.run, nativeProcess, fromHandle]
  by_cases h0 : handle = 0
  · exact ⟨.contextNull, by simp [h0]⟩
  cases out with
  | none => exact ⟨.outputNull, by simp [h0]⟩
  | some ob =>
    cases hd : ob.direct with
    | false => exact ⟨.outputAddress, by simp [h0, hd]⟩
    | true =>
      have hm : arr.mappable = false := by simpa [h0, hd] using h
      exact ⟨.inputMapping, by simp [h0, hd, hm]⟩

theorem nativeProcess_not_zero (lib : ImgProc) (w : World) (handle : Int)
    (nv21Array : JByteArray) (width height : Int) (ob : ByteBuffer) (edgesOnly : Bool)
    (hlive : handle ≠ 0) (hdir : ob.direct = true) (hmap : nv21Array.mappable = true)
    (why : Rejection) :
    (nativeProcess lib w handle nv21Array width height (some ob) edgesOnly).ret ≠ .zero why := by
  simp only [nativeProcess, fromHandle, hlive, hdir, hmap, if_false, Bool.true_eq_false]
  repeat' split
  all_goals simp

theorem step_inv (lib : ImgProc) {w : World} {handle : Int} {ctx : ProcessorContext}
    {last : Option (Int × Int)} (hctx : w.heap handle = some ctx) (hinv : Inv ctx last)
    (c : Call) (hret : (c.run lib w).ret.returned = true) :
    ∃ ctx1, (c.run lib w).world.heap handle = some ctx1 ∧
      Inv ctx1 (if c.handle = handle ∧ c.passesChecks = true
        then some (c.width, c.height) else last) := by
  by_cases hh : c.handle = handle
  swap
  · rw [if_neg (fun h => hh h.1)]
    exact ⟨ctx, by rw [Call.run, nativeProcess_heap_other _ _ _ _ _ _ _ _ _ hh]; exact hctx, hinv⟩
  cases hp : c.passesChecks with
  | false =>
    obtain ⟨why, hr⟩ := nativeProcess_rejected lib w c hp
    rw [if_neg (by simp), hr]
    exact ⟨ctx, hctx, hinv⟩
  | true =>
    rw [if_pos ⟨hh, rfl⟩]
    subst hh
    obtain ⟨handle, arr, width, height, out, e⟩ := c
    simp only [Call.run] at hret ⊢
    simp only at hctx
    have hel : (nativeProcess lib w handle arr width height out e).ret = .elapsed := by
      cases hr : (nativeProcess lib w handle arr width height out e).ret with
      | elapsed => rfl
      | fault f => rw [hr] at hret; cases hret
      | zero why =>
        exfalso
        simp only [Call.passesChecks, fromHandle] at hp
        cases out with
        | none => simp at hp
        | some ob =>
          simp only [Bool.and_eq_true, decide_eq_true_eq] at hp
          exact nativeProcess_not_zero lib w handle arr width height ob e hp.1.1 hp.1.2 hp.2 why hr
    obtain ⟨h0, ⟨ob, rfl, hd⟩, hm, -, wd, ht, rfl, rfl, hwd, hht, -, -⟩ :=
      nativeProcess_elapsed_inv hel
    have hpos : 0 < ht * wd := Nat.mul_pos hht hwd
    obtain ⟨cx1, a1, hs, hconf⟩ := sizeBuffers_configured hinv w.allocs hpos
    obtain ⟨ctx2, h2, hb, hg, hed, -, -⟩ :=
      nativeProcess_headers lib w handle ctx cx1 a1 arr ob e h0 hctx hd hm hs hconf
    exact ⟨ctx2, h2, wd, ht, rfl, rfl, hpos, hb.sized hconf.1, hg.sized hconf.2.1,
      hed.sized hconf.2.2⟩

theorem runCalls_inv (lib : ImgProc) (handle : Int) :
    ∀ (cs : List Call) (w w1 : World) (ctx : ProcessorContext) (last : Option (Int × Int)),
      w.heap handle = some ctx → Inv ctx last → runCalls lib w cs = some w1 →
      ∃ ctx1, w1.heap handle = some ctx1 ∧ Inv ctx1 (lastFrame handle last cs) := by
  intro cs
  induction cs with
  | nil =>
    intro w w1 ctx last hctx hinv hrun
    simp only [runCalls, Option.some.injEq] at hrun
    subst hrun
    exact ⟨ctx, hctx, hinv⟩
  | cons c cs ih =>
    intro w w1 ctx last hctx hinv hrun
    simp only [runCalls] at hrun
    split at hrun
    · rename_i hret
      obtain ⟨ctx1, h1, hinv1⟩ := step_inv lib hctx hinv c hret
      exact ih _ _ _ _ h1 hinv1 hrun
    · cases hrun

/-! ## The claims -/

theorem even_frame_bytes {wd ht : Nat} (hhe : ht % 2 = 0) :
    (ht + ht / 2) * wd = wd * ht * 3 / 2 := by
  obtain ⟨k, rfl⟩ : ∃ k, ht = 2 * k := ⟨ht / 2, by omega⟩
  have e1 : (2 * k + 2 * k / 2) * wd = 3 * (k * wd) := by
    rw [show 2 * k + 2 * k / 2 = 3 * k by omega]; ring
  have e2 : wd * (2 * k) * 3 = 6 * (k * wd) := by ring
  rw [e1, e2]
  omega

theorem chroma_lt {src : List Nat} {ht wd r c : Nat} (hr : r < ht) (hc : c < wd)
    (hwe : wd % 2 = 0) (hhe : ht % 2 = 0) (hlen : (ht + ht / 2) * wd ≤ src.length) :
    ht * wd + r / 2 * wd + 2 * (c / 2) + 1 < src.length := by
  have h1 : r / 2 < ht / 2 := by omega
  have h2 : (r / 2 + 1) * wd ≤ ht / 2 * wd := Nat.mul_le_mul_right wd h1
  have e1 : (r / 2 + 1) * wd = r / 2 * wd + wd := by ring
  have e2 : (ht + ht / 2) * wd = ht * wd + ht / 2 * wd := by ring
  omega

/-- C1, as amended.  For a live handle, a direct output buffer of at least
`width * height * 4` bytes, a mappable input of at least `width * height * 3 / 2`
bytes and `width`, `height` positive and even, `nativeProcess` with
`edgesOnly = false` returns the elapsed time and leaves the output region with,
for every pixel `(r, c)`, the bytes `R, G, B, 255` where `(R, G, B)` is the
BT.601 conversion of the pixel's luma and of the V, U pair of its 2x2 block;
the input offsets read are inside the array and the bytes of the output buffer
after the frame are untouched. -/
theorem passthrough_pixels (lib : ImgProc) (w : World) (handle : Int)
    (ctx : ProcessorContext) (bytes : List Nat) (wd ht : Nat) (ob : ByteBuffer)
    (hlive : handle ≠ 0) (hctx : w.heap handle = some ctx) (hdir : ob.direct = true)
    (hwd : 0 < wd) (hht : 0 < ht) (hwe : wd % 2 = 0) (hhe : ht % 2 = 0)
    (hlen : wd * ht * 3 / 2 ≤ bytes.length) (hcap : wd * ht * 4 ≤ ob.bytes.length) :
    ∃ w1 out, nativeProcess lib w handle ⟨bytes, true⟩ wd ht (some ob) false =
        ⟨.elapsed, w1, some ⟨true, out⟩⟩ ∧
      out.length = ob.bytes.length ∧
      out.drop (wd * ht * 4) = ob.bytes.drop (wd * ht * 4) ∧
      ∀ r c, r < ht → c < wd →
        r * wd + c < bytes.length ∧
        ht * wd + r / 2 * wd + 2 * (c / 2) + 1 < bytes.length ∧
        out[4 * (r * wd + c)]? = some (yuvToRgb (lumaAt bytes wd r c)
          (chromaUAt bytes ht wd r c) (chromaVAt bytes ht wd r c)).1 ∧
        out[4 * (r * wd + c) + 1]? = some (yuvToRgb (lumaAt bytes wd r c)
          (chromaUAt bytes ht wd r c) (chromaVAt bytes ht wd r c)).2.1 ∧
        out[4 * (r * wd + c) + 2]? = some (yuvToRgb (lumaAt bytes wd r c)
          (chromaUAt bytes ht wd r c) (chromaVAt bytes ht wd r c)).2.2 ∧
        out[4 * (r * wd + c) + 3]? = some 255 := by
  have hlen1 : (ht + ht / 2) * wd ≤ bytes.length := by rw [even_frame_bytes hhe]; exact hlen
  have hcap1 : ht * wd * 4 ≤ ob.bytes.length := by rw [Nat.mul_comm ht wd]; exact hcap
  obtain ⟨w1, hrun⟩ := nativeProcess_passthrough lib w handle ctx bytes ob hlive hctx hdir hwd hht
    hwe hhe hlen1 hcap1
  refine ⟨w1, _, hrun, ?_, ?_, ?_⟩
  · simp only [List.length_append, bgr2rgbaBytes_length, List.length_drop]
    omega
  · rw [Nat.mul_comm wd ht, List.drop_append_of_le_length (by rw [bgr2rgbaBytes_length])]
    · rw [List.drop_of_length_le (by rw [bgr2rgbaBytes_length]), List.nil_append]
  · intro r c hr hc
    have hp := pixel_lt hr hc
    have hget : ∀ k, k < 4 →
        (bgr2rgbaBytes (ht * wd) (nv21ToBgr ht wd bytes) ++ ob.bytes.drop (ht * wd * 4))[
          4 * (r * wd + c) + k]? =
        some (if k = 3 then 255 else (nv21ToBgr ht wd bytes).getD (3 * (r * wd + c) + (2 - k)) 0) := by
      intro k hk
      rw [List.getElem?_append_left (by rw [bgr2rgbaBytes_length]; omega)]
      exact bgr2rgbaBytes_getElem? _ hp hk
    have h0 := hget 0 (by omega)
    have h1 := hget 1 (by omega)
    have h2 := hget 2 (by omega)
    have h3 := hget 3 (by omega)
    simp only [Nat.add_zero] at h0
    rw [if_neg (by omega), nv21ToBgr_getD bytes hr hc (by omega)] at h0 h1 h2
    have e2 : (ht + ht / 2) * wd = ht * wd + ht / 2 * wd := by ring
    refine ⟨by omega, chroma_lt hr hc hwe hhe hlen1, h0, h1, h2, h3⟩

theorem liveWorld_heap : liveWorld.heap 7 = some ProcessorContext.fresh := by
  simp [liveWorld, nativeCreate]

/-- C1, witness: the amended statement at a 4x4 frame of 24 bytes. -/
theorem passthrough_pixels_witness :
    (0 < 4 ∧ 4 % 2 = 0 ∧ 4 * 4 * 3 / 2 ≤ (List.replicate 24 128).length ∧
      4 * 4 * 4 ≤ (zeroBuffer 64).bytes.length) ∧
    ∃ w1 out, nativeProcess blankLib liveWorld 7 ⟨List.replicate 24 128, true⟩ (4 : Nat) (4 : Nat)
        (some (zeroBuffer 64)) false = ⟨.elapsed, w1, some ⟨true, out⟩⟩ ∧
      out.length = (zeroBuffer 64).bytes.length :=
  ⟨by decide,
    let ⟨w1, out, h, hl, _⟩ := passthrough_pixels blankLib liveWorld 7 ProcessorContext.fresh
      (List.replicate 24 128) 4 4 (zeroBuffer 64) (by decide) liveWorld_heap rfl (by decide)
      (by decide) (by decide) (by decide) (by decide) (by decide)
    ⟨w1, out, h, hl⟩⟩

/-- C1, counterexample: a 3x3 frame of 13 bytes (`3 * 3 * 3 / 2 = 13`), a live
handle and a direct output buffer of 36 bytes.  The call does not return: the
conversion of the 4x3 view fails OpenCV's size assertion (`width % 2 == 0 &&
height % 3 == 0`), and no byte of the output region is written, so the fourth
byte of the first pixel is still `0`, not `255`. -/
theorem passthrough_odd_frame :
    (0 : Int) < 3 ∧ 3 * 3 * 3 / 2 ≤ (grayFrame 13).bytes.length ∧
    liveWorld.heap 7 = some ProcessorContext.fresh ∧
    (nativeProcess blankLib liveWorld 7 (grayFrame 13) 3 3 (some (zeroBuffer 36)) false).ret
      = .fault .cvException ∧
    (nativeProcess blankLib liveWorld 7 (grayFrame 13) 3 3 (some (zeroBuffer 36)) false).out
      = some (zeroBuffer 36) ∧
    (zeroBuffer 36).bytes[3]? ≠ some 255 := by
  decide

/-- C2, as amended.  For a live handle, a direct output buffer of at least
`width * height * 4` bytes, a mappable input of at least `width * height * 3 / 2`
bytes and `width`, `height` positive and even, `nativeProcess` with
`edgesOnly = true` returns the elapsed time; the `edges` matrix it leaves is
the `height x width` single-channel Canny map (thresholds 50 and 150) of the
5x5 Gaussian blur (sigma 1.4) of the gray image of the converted frame, and
every output pixel is `e, e, e, 255` with `e` the value of that map at the
pixel; the bytes of the output buffer after the frame are untouched. -/
theorem edges_pixels (lib : ImgProc) (w : World) (handle : Int)
    (ctx : ProcessorContext) (bytes : List Nat) (wd ht : Nat) (ob : ByteBuffer)
    (hlive : handle ≠ 0) (hctx : w.heap handle = some ctx) (hdir : ob.direct = true)
    (hwd : 0 < wd) (hht : 0 < ht) (hwe : wd % 2 = 0) (hhe : ht % 2 = 0)
    (hlen : wd * ht * 3 / 2 ≤ bytes.length) (hcap : wd * ht * 4 ≤ ob.bytes.length) :
    ∃ w1 ctx1 out, nativeProcess lib w handle ⟨bytes, true⟩ wd ht (some ob) true =
        ⟨.elapsed, w1, some ⟨true, out⟩⟩ ∧
      w1.heap handle = some ctx1 ∧
      ctx1.edges.rows = ht ∧ ctx1.edges.cols = wd ∧ ctx1.edges.channels = 1 ∧
      ctx1.edges.data = lib.canny ht wd 50 150
        (lib.gaussianBlur ht wd (5, 5) 1.4 (lib.bgr2gray ht wd (nv21ToBgr ht wd bytes))) ∧
      out.length = ob.bytes.length ∧
      out.drop (wd * ht * 4) = ob.bytes.drop (wd * ht * 4) ∧
      ∀ r c, r < ht → c < wd →
        ∃ e, ctx1.edges.data[r * wd + c]? = some e ∧
          out[4 * (r * wd + c)]? = some e ∧
          out[4 * (r * wd + c) + 1]? = some e ∧
          out[4 * (r * wd + c) + 2]? = some e ∧
          out[4 * (r * wd + c) + 3]? = some 255 := by
  have hlen1 : (ht + ht / 2) * wd ≤ bytes.length := by rw [even_frame_bytes hhe]; exact hlen
  have hcap1 : ht * wd * 4 ≤ ob.bytes.length := by rw [Nat.mul_comm ht wd]; exact hcap
  obtain ⟨w1, ctx1, hrun, hheap, hsz, hdata⟩ := nativeProcess_edges lib w handle ctx bytes ob hlive
    hctx hdir hwd hht hwe hhe hlen1 hcap1
  have hdl : ctx1.edges.data.length = ht * wd := by rw [hdata]; exact lib.canny_length _ _ _ _ _
  refine ⟨w1, ctx1, _, hrun, hheap, hsz.1, hsz.2.1, hsz.2.2.1, hdata, ?_, ?_, ?_⟩
  · simp only [List.length_append, gray2rgbaBytes_length, List.length_drop]
    omega
  · rw [Nat.mul_comm wd ht, List.drop_append_of_le_length (by rw [gray2rgbaBytes_length])]
    · rw [List.drop_of_length_le (by rw [gray2rgbaBytes_length]), List.nil_append]
  · intro r c hr hc
    have hp := pixel_lt hr hc
    have hget : ∀ k, k < 4 →
        (gray2rgbaBytes (ht * wd) ctx1.edges.data ++ ob.bytes.drop (ht * wd * 4))[
          4 * (r * wd + c) + k]? =
        some (if k = 3 then 255 else ctx1.edges.data.getD (r * wd + c) 0) := by
      intro k hk
      rw [List.getElem?_append_left (by rw [gray2rgbaBytes_length]; omega)]
      exact gray2rgbaBytes_getElem? _ hp hk
    have h0 := hget 0 (by omega)
    have h1 := hget 1 (by omega)
    have h2 := hget 2 (by omega)
    have h3 := hget 3 (by omega)
    simp only [Nat.add_zero] at h0
    rw [if_neg (by omega)] at h0 h1 h2
    have he : ctx1.edges.data[r * wd + c]? = some (ctx1.edges.data.getD (r * wd + c) 0) := by
      rw [List.getD_eq_getElem?_getD, List.getElem?_eq_getElem (by omega), Option.getD_some]
    exact ⟨_, he, h0, h1, h2, h3⟩

/-- C2, witness: the amended statement at a 4x4 frame of 24 bytes. -/
theorem edges_pixels_witness :
    (0 < 4 ∧ 4 % 2 = 0 ∧ 4 * 4 * 3 / 2 ≤ (List.replicate 24 128).length ∧
      4 * 4 * 4 ≤ (zeroBuffer 64).bytes.length) ∧
    ∃ w1 out, nativeProcess blankLib liveWorld 7 ⟨List.replicate 24 128, true⟩ (4 : Nat) (4 : Nat)
        (some (zeroBuffer 64)) true = ⟨.elapsed, w1, some ⟨true, out⟩⟩ ∧
      out.length = (zeroBuffer 64).bytes.length :=
  ⟨by decide,
    let ⟨w1, _, out, h, _, _, _, _, _, hl, _⟩ := edges_pixels blankLib liveWorld 7
      ProcessorContext.fresh (List.replicate 24 128) 4 4 (zeroBuffer 64) (by decide)
      liveWorld_heap rfl (by decide) (by decide) (by decide) (by decide) (by decide) (by decide)
    ⟨w1, out, h, hl⟩⟩

/-- C2, counterexample: a frame of width 4 and height 3 with 18 bytes
(`4 * 3 * 3 / 2 = 18`), a live handle and a direct output buffer of 48 bytes,
`edgesOnly = true`.  The view has `3 + 3 / 2 = 4` rows, which is not a
multiple of 3: the conversion throws, the call does not return and the output
region is not written, so the fourth byte of the first pixel is `0`, not
`255`. -/
theorem edges_odd_height :
    (0 : Int) < 4 ∧ (0 : Int) < 3 ∧ 4 * 3 * 3 / 2 ≤ (grayFrame 18).bytes.length ∧
    liveWorld.heap 7 = some ProcessorContext.fresh ∧
    (nativeProcess blankLib liveWorld 7 (grayFrame 18) 4 3 (some (zeroBuffer 48)) true).ret
      = .fault .cvException ∧
    (nativeProcess blankLib liveWorld 7 (grayFrame 18) 4 3 (some (zeroBuffer 48)) true).out
      = some (zeroBuffer 48) ∧
    (zeroBuffer 48).bytes[3]? ≠ some 255 := by
  decide

/-- C3.  With the null handle `0`, whatever the input frame, the width, the
height, the output buffer and the flag, `nativeProcess` logs that the context
is null and returns 0; the world (every context with its three scratch
matrices, and the allocation count) and the output buffer are what they were. -/
theorem null_handle_rejected (lib : ImgProc) (w : World) (nv21Array : JByteArray)
    (width height : Int) (outputBuffer : Option ByteBuffer) (edgesOnly : Bool) :
    (nativeProcess lib w 0 nv21Array width height outputBuffer edgesOnly).ret
      = .zero .contextNull ∧
    (nativeProcess lib w 0 nv21Array width height outputBuffer edgesOnly).world = w ∧
    (nativeProcess lib w 0 nv21Array width height outputBuffer edgesOnly).out = outputBuffer := by
  simp [nativeProcess, fromHandle]

/-- C4.  With a live handle, when the output buffer is null, or has no direct
address, or the input array cannot be mapped, `nativeProcess` returns 0 and
changes nothing: the world is the one before the call, so the context still
holds the same three scratch matrices, and the output buffer is unchanged. -/
theorem bad_buffers_rejected (lib : ImgProc) (w : World) (handle : Int) (ctx : ProcessorContext)
    (nv21Array : JByteArray) (width height : Int) (outputBuffer : Option ByteBuffer)
    (edgesOnly : Bool) (hlive : handle ≠ 0) (hctx : w.heap handle = some ctx)
    (hbad : outputBuffer = none ∨ (∃ ob, outputBuffer = some ob ∧ ob.direct = false) ∨
      nv21Array.mappable = false) :
    (∃ why, (nativeProcess lib w handle nv21Array width height outputBuffer edgesOnly).ret
      = .zero why) ∧
    (nativeProcess lib w handle nv21Array width height outputBuffer edgesOnly).world = w ∧
    (nativeProcess lib w handle nv21Array width height outputBuffer edgesOnly).world.heap handle
      = some ctx ∧
    (nativeProcess lib w handle nv21Array width height outputBuffer edgesOnly).out
      = outputBuffer := by
  rcases hbad with h | ⟨ob, h, hd⟩ | h
  · subst h
    simp [nativeProcess, fromHandle, hlive, hctx]
  · subst h
    simp [nativeProcess, fromHandle, hlive, hctx, hd]
  · cases outputBuffer with
    | none => simp [nativeProcess, fromHandle, hlive, hctx]
    | some ob =>
      cases hd : ob.direct <;> simp [nativeProcess, fromHandle, hlive, hctx, hd, h]

/-- C4, witness: a live handle and a null output buffer. -/
theorem bad_buffers_rejected_witness :
    ((7 : Int) ≠ 0 ∧ liveWorld.heap 7 = some ProcessorContext.fresh) ∧
    (nativeProcess blankLib liveWorld 7 (grayFrame 24) 4 4 none false).world = liveWorld :=
  ⟨⟨by decide, liveWorld_heap⟩,
    (bad_buffers_rejected blankLib liveWorld 7 ProcessorContext.fresh (grayFrame 24) 4 4 none false
      (by decide) liveWorld_heap (Or.inl rfl)).2.1⟩

theorem nativeCreate_heap (w0 : World) {addr : Int} (hlive : addr ≠ 0) :
    (nativeCreate w0 addr).1.heap addr = some ProcessorContext.fresh ∧
      (nativeCreate w0 addr).2 = addr := by
  simp [nativeCreate, hlive]

theorem reachable_inv (lib : ImgProc) (w0 : World) {addr : Int} (hlive : addr ≠ 0)
    (cs : List Call) (w : World) (hrun : runCalls lib (nativeCreate w0 addr).1 cs = some w) :
    ∃ ctx, w.heap addr = some ctx ∧ Inv ctx (lastFrame addr none cs) :=
  runCalls_inv lib addr cs _ w _ none (nativeCreate_heap w0 hlive).1 rfl hrun

theorem sizeBuffers_keep {ctx : ProcessorContext} {ht wd : Nat} (hc : Configured ctx ht wd)
    (hpos : 0 < ht * wd) (a : Nat) : sizeBuffers ctx a wd ht = .ok (ctx, a) := by
  rw [sizeBuffers_pos ctx a hpos, hc.no_realloc hpos]
  rfl

/-- C5.  In the world reached from `nativeCreate` (returning the handle
`addr`) by any sequence of `nativeProcess` calls that came back to the caller
- with the elapsed time or with the zero of a rejection, on this or on other
handles, with any widths, heights and flags - the context of `addr` is live
and its three matrices have the same rows and columns.  When no call on
`addr` has passed the precondition checks all three are empty; otherwise all
three are non-empty and have the width and height given to the most recent
call on `addr` that passed the checks, `bgr` with 3 channels and `gray`,
`edges` with 1. -/
theorem scratch_buffers_sized_alike (lib : ImgProc) (w0 : World) (addr : Int) (cs : List Call)
    (w : World) (hlive : addr ≠ 0)
    (hrun : runCalls lib (nativeCreate w0 addr).1 cs = some w) :
    ∃ ctx, w.heap (nativeCreate w0 addr).2 = some ctx ∧
      (ctx.gray.rows = ctx.bgr.rows ∧ ctx.gray.cols = ctx.bgr.cols ∧
        ctx.edges.rows = ctx.bgr.rows ∧ ctx.edges.cols = ctx.bgr.cols) ∧
      match lastFrame addr none cs with
      | none => ctx.bgr.empty = true ∧ ctx.gray.empty = true ∧ ctx.edges.empty = true
      | some (width, height) =>
        (ctx.bgr.empty = false ∧ ctx.gray.empty = false ∧ ctx.edges.empty = false) ∧
        ((ctx.bgr.cols : Int) = width ∧ (ctx.bgr.rows : Int) = height) ∧
        ((ctx.gray.cols : Int) = width ∧ (ctx.gray.rows : Int) = height) ∧
        ((ctx.edges.cols : Int) = width ∧ (ctx.edges.rows : Int) = height) ∧
        ctx.bgr.channels = 3 ∧ ctx.gray.channels = 1 ∧ ctx.edges.channels = 1 := by
  obtain ⟨ctx, hctx, hinv⟩ := reachable_inv lib w0 hlive cs w hrun
  rw [(nativeCreate_heap w0 hlive).2]
  refine ⟨ctx, hctx, ?_⟩
  cases hl : lastFrame addr none cs with
  | none =>
    rw [hl] at hinv
    have : ctx = ProcessorContext.fresh := hinv
    subst this
    simp [ProcessorContext.fresh, Mat.header, Mat.empty]
  | some p =>
    obtain ⟨width, height⟩ := p
    rw [hl] at hinv
    obtain ⟨wd, ht, rfl, rfl, hpos, hb, hg, he⟩ := hinv
    have nb := hb.not_empty hpos
    have ng := hg.not_empty hpos
    have ne := he.not_empty hpos
    obtain ⟨b1, b2, b3, -⟩ := hb
    obtain ⟨g1, g2, g3, -⟩ := hg
    obtain ⟨e1, e2, e3, -⟩ := he
    simp only [b1, b2, b3, g1, g2, g3, e1, e2, e3, nb, ng, ne, and_self]

/-- C5, witness: one 4x4 call on a new processor. -/
theorem scratch_buffers_sized_alike_witness :
    ∃ ctx, (Call.run blankLib liveWorld ⟨7, grayFrame 24, 4, 4, some (zeroBuffer 64), true⟩).world.heap
        (nativeCreate emptyWorld 7).2 = some ctx ∧
      ctx.gray.rows = ctx.bgr.rows ∧ ctx.gray.cols = ctx.bgr.cols ∧
      ctx.edges.rows = ctx.bgr.rows ∧ ctx.edges.cols = ctx.bgr.cols :=
  let ⟨ctx, h, hs, _⟩ := scratch_buffers_sized_alike blankLib emptyWorld 7
    [⟨7, grayFrame 24, 4, 4, some (zeroBuffer 64), true⟩]
    (Call.run blankLib liveWorld ⟨7, grayFrame 24, 4, 4, some (zeroBuffer 64), true⟩).world
    (by decide) (by rw [runCalls, if_pos (by decide)]; rfl)
  ⟨ctx, h, hs⟩

theorem passesChecks_inv {c : Call} (h : c.passesChecks = true) :
    c.handle ≠ 0 ∧ ∃ ob, c.outputBuffer = some ob ∧ ob.direct = true ∧
      c.nv21Array.mappable = true := by
  obtain ⟨handle, arr, width, height, out, e⟩ := c
  simp only [Call.passesChecks, fromHandle] at h
  cases out with
  | none => simp at h
  | some ob =>
    simp only [Bool.and_eq_true, decide_eq_true_eq] at h
    exact ⟨h.1.1, ob, rfl, h.1.2, h.2⟩

/-- C6.  Take a processor reached from `nativeCreate` by calls that came back
to the caller, and two calls in succession on its handle with the same width
and height, the first of which returns the elapsed time and the second of
which passes the handle, output and input checks.  After the first call the
test of the reallocation branch is false for that width and height, and after
the second call each of `bgr`, `gray` and `edges` has the rows, columns,
channels and pixel buffer the first call left; no pixel buffer is allocated
by the second call. -/
theorem same_size_no_realloc (lib : ImgProc) (w0 : World) (addr : Int) (cs : List Call)
    (w : World) (first second : Call) (hlive : addr ≠ 0)
    (hrun : runCalls lib (nativeCreate w0 addr).1 cs = some w)
    (hf : first.handle = addr) (hs : second.handle = addr)
    (hw : second.width = first.width) (hh : second.height = first.height)
    (hfirst : (first.run lib w).ret = .elapsed) (hsecond : second.passesChecks = true) :
    ∃ ctx1 ctx2, (first.run lib w).world.heap addr = some ctx1 ∧
      needsRealloc ctx1 second.width second.height = false ∧
      (second.run lib (first.run lib w).world).world.heap addr = some ctx2 ∧
      ctx2.bgr.SameHeader ctx1.bgr ∧ ctx2.gray.SameHeader ctx1.gray ∧
      ctx2.edges.SameHeader ctx1.edges ∧
      (second.run lib (first.run lib w).world).world.allocs = (first.run lib w).world.allocs := by
  obtain ⟨ctx, hctx, hinv⟩ := reachable_inv lib w0 hlive cs w hrun
  obtain ⟨h1, arr1, width, height, out1, e1⟩ := first
  obtain ⟨h2, arr2, width2, height2, out2, e2⟩ := second
  simp only at hf hs hw hh
  subst hf hs hw hh
  simp only [Call.run] at hfirst ⊢
  obtain ⟨-, ⟨ob1, rfl, hd1⟩, hm1, -, wd, ht, rfl, rfl, hwd, hht, -, -⟩ :=
    nativeProcess_elapsed_inv hfirst
  have hpos : 0 < ht * wd := Nat.mul_pos hht hwd
  obtain ⟨cx1, a1, hsz, hconf⟩ := sizeBuffers_configured hinv w.allocs hpos
  obtain ⟨ctx1, hh1, hb, hg, hed, -, -⟩ :=
    nativeProcess_headers lib w h2 ctx cx1 a1 arr1 ob1 e1 hlive hctx hd1 hm1 hsz hconf
  have hconf1 : Configured ctx1 ht wd :=
    ⟨hb.sized hconf.1, hg.sized hconf.2.1, hed.sized hconf.2.2⟩
  obtain ⟨-, ob2, hout2, hd2, hm2⟩ := passesChecks_inv hsecond
  simp only at hout2 hm2
  subst hout2
  obtain ⟨ctx2, hh2, hb2, hg2, hed2, ha2, -⟩ :=
    nativeProcess_headers lib _ h2 ctx1 ctx1 _ arr2 ob2 e2 hlive hh1 hd2 hm2
      (sizeBuffers_keep hconf1 hpos _) hconf1
  exact ⟨ctx1, ctx2, hh1, hconf1.no_realloc hpos, hh2, hb2, hg2, hed2, ha2⟩

/-- C6, witness: two 4x4 calls on a new processor, the second with another
frame and the other flag. -/
theorem same_size_no_realloc_witness :
    ∃ ctx1 ctx2,
      (Call.run blankLib liveWorld ⟨7, grayFrame 24, 4, 4, some (zeroBuffer 64), false⟩).world.heap 7
        = some ctx1 ∧
      (Call.run blankLib
        (Call.run blankLib liveWorld ⟨7, grayFrame 24, 4, 4, some (zeroBuffer 64), false⟩).world
        ⟨7, grayFrame 30, 4, 4, some (zeroBuffer 64), true⟩).world.heap 7 = some ctx2 ∧
      ctx2.gray.SameHeader ctx1.gray :=
  let ⟨ctx1, ctx2, h1, _, h2, _, hg, _⟩ := same_size_no_realloc blankLib emptyWorld 7 [] liveWorld
    ⟨7, grayFrame 24, 4, 4, some (zeroBuffer 64), false⟩
    ⟨7, grayFrame 30, 4, 4, some (zeroBuffer 64), true⟩ (by decide) rfl rfl rfl rfl rfl
    (by decide) (by decide)
  ⟨ctx1, ctx2, h1, h2, hg⟩

theorem sizeBuffers_realloc (ctx : ProcessorContext) (a : Nat) {ht wd : Nat} (hpos : 0 < ht * wd)
    (hn : needsRealloc ctx wd ht = true) :
    sizeBuffers ctx a wd ht =
      .ok (⟨⟨ht, wd, 3, some a, List.replicate (ht * wd * 3) 0⟩,
            ⟨ht, wd, 1, some (a + 1), List.replicate (ht * wd * 1) 0⟩,
            ⟨ht, wd, 1, some (a + 2), List.replicate (ht * wd * 1) 0⟩⟩, a + 3) := by
  rw [sizeBuffers_pos ctx a hpos, if_pos hn]

/-- C7, as amended.  For a live processor whose `bgr` matrix does not have
`width` columns and `height` rows, `width` and `height` positive, a call of
`nativeProcess` with that width and height that passes the handle, output and
input checks takes the reallocation branch once: exactly three pixel buffers
are allocated, one each for `bgr`, `gray` and `edges`, and nothing later in
the call replaces them, so the call leaves `bgr`, `gray` and `edges` with
`height` rows and `width` columns, `bgr` with 3 channels and `gray`, `edges`
with 1.  The call is not rejected, and it returns the elapsed time when the
width and height are even, the input has `width * height * 3 / 2` bytes and
the output buffer `width * height * 4`. -/
theorem resize_reallocates_once (lib : ImgProc) (w : World) (handle : Int)
    (ctx : ProcessorContext) (nv21Array : JByteArray) (wd ht : Nat) (ob : ByteBuffer)
    (edgesOnly : Bool) (hlive : handle ≠ 0) (hctx : w.heap handle = some ctx)
    (hdir : ob.direct = true) (hmap : nv21Array.mappable = true) (hwd : 0 < wd) (hht : 0 < ht)
    (hdiff : (ctx.bgr.cols : Int) ≠ wd ∨ (ctx.bgr.rows : Int) ≠ ht) :
    ∃ ctx1, (nativeProcess lib w handle nv21Array wd ht (some ob) edgesOnly).world.heap handle
        = some ctx1 ∧
      (nativeProcess lib w handle nv21Array wd ht (some ob) edgesOnly).world.allocs
        = w.allocs + 3 ∧
      (ctx1.bgr.buf = some w.allocs ∧ ctx1.gray.buf = some (w.allocs + 1) ∧
        ctx1.edges.buf = some (w.allocs + 2)) ∧
      (ctx1.bgr.rows = ht ∧ ctx1.bgr.cols = wd ∧ ctx1.bgr.channels = 3) ∧
      (ctx1.gray.rows = ht ∧ ctx1.gray.cols = wd ∧ ctx1.gray.channels = 1) ∧
      (ctx1.edges.rows = ht ∧ ctx1.edges.cols = wd ∧ ctx1.edges.channels = 1) ∧
      (∀ why, (nativeProcess lib w handle nv21Array wd ht (some ob) edgesOnly).ret ≠ .zero why) ∧
      (wd % 2 = 0 → ht % 2 = 0 → wd * ht * 3 / 2 ≤ nv21Array.bytes.length →
        wd * ht * 4 ≤ ob.bytes.length →
        (nativeProcess lib w handle nv21Array wd ht (some ob) edgesOnly).ret = .elapsed) := by
  have hpos : 0 < ht * wd := Nat.mul_pos hht hwd
  have hn : needsRealloc ctx wd ht = true := by
    rcases hdiff with h | h <;> simp [needsRealloc, h]
  have hsz := sizeBuffers_realloc ctx w.allocs hpos hn
  obtain ⟨ctx1, hh1, hb, hg, he, ha, hz⟩ :=
    nativeProcess_headers lib w handle ctx _ _ nv21Array ob edgesOnly hlive hctx hdir hmap hsz
      ⟨⟨rfl, rfl, rfl, rfl⟩, ⟨rfl, rfl, rfl, rfl⟩, ⟨rfl, rfl, rfl, rfl⟩⟩
  refine ⟨ctx1, hh1, ha, ⟨hb.2.2.2, hg.2.2.2, he.2.2.2⟩, ⟨hb.1, hb.2.1, hb.2.2.1⟩,
    ⟨hg.1, hg.2.1, hg.2.2.1⟩, ⟨he.1, he.2.1, he.2.2.1⟩, hz, ?_⟩
  intro hwe hhe hlen hcap
  obtain ⟨bytes, mappable⟩ := nv21Array
  simp only at hmap hlen
  subst hmap
  have hlen1 : (ht + ht / 2) * wd ≤ bytes.length := by rw [even_frame_bytes hhe]; exact hlen
  have hcap1 : ht * wd * 4 ≤ ob.bytes.length := by rw [Nat.mul_comm ht wd]; exact hcap
  cases edgesOnly with
  | false =>
    obtain ⟨w1, hr⟩ := nativeProcess_passthrough lib w handle ctx bytes ob hlive hctx hdir hwd hht
      hwe hhe hlen1 hcap1
    rw [hr]
  | true =>
    obtain ⟨w1, c1, hr, -⟩ := nativeProcess_edges lib w handle ctx bytes ob hlive hctx hdir hwd hht
      hwe hhe hlen1 hcap1
    rw [hr]

/-- C7, witness: the processor sized for 2x2 frames is given a 4x4 frame. -/
theorem resize_reallocates_once_witness :
    ((0 : Nat) < 4 ∧ sizedWorld.allocs = 3) ∧
    (nativeProcess blankLib sizedWorld 7 (grayFrame 24) (4 : Nat) (4 : Nat) (some (zeroBuffer 64))
      true).world.allocs = sizedWorld.allocs + 3 :=
  ⟨by decide,
    let ⟨_, _, ha, _⟩ := resize_reallocates_once blankLib sizedWorld 7
      ⟨⟨2, 2, 3, some 0, [130, 130, 130, 130, 130, 130, 130, 130, 130, 130, 130, 130]⟩,
        ⟨2, 2, 1, some 1, [0, 0, 0, 0]⟩, ⟨2, 2, 1, some 2, [0, 0, 0, 0]⟩⟩
      (grayFrame 24) 4 4 (zeroBuffer 64) true (by decide) (by decide) rfl rfl (by decide)
      (by decide) (by decide)
    ha⟩

/-- C7, counterexample: the processor sized for 2x2 frames is called with
width `-2` and height `2`.  The call passes the three checks and `(-2, 2)`
differs from `(2, 2)`, but `cv::Mat(2, -2, CV_8UC3)` throws before anything
is assigned: no buffer is allocated and the three matrices still are 2x2, not
of width `-2`. -/
theorem resize_negative_width :
    (sizedWorld.heap 7).map (fun c => (c.bgr.empty, c.bgr.cols, c.bgr.rows)) = some (false, 2, 2) ∧
    Call.passesChecks ⟨7, grayFrame 6, -2, 2, some (zeroBuffer 16), false⟩ = true ∧
    ((-2 : Int), (2 : Int)) ≠ (2, 2) ∧
    (nativeProcess blankLib sizedWorld 7 (grayFrame 6) (-2) 2 (some (zeroBuffer 16)) false).ret
      = .fault .cvException ∧
    (nativeProcess blankLib sizedWorld 7 (grayFrame 6) (-2) 2 (some (zeroBuffer 16))
      false).world.allocs = sizedWorld.allocs ∧
    ((nativeProcess blankLib sizedWorld 7 (grayFrame 6) (-2) 2 (some (zeroBuffer 16))
      false).world.heap 7).map
        (fun c => ((c.bgr.cols, c.bgr.rows), (c.gray.cols, c.gray.rows),
          (c.edges.cols, c.edges.rows))) = some ((2, 2), (2, 2), (2, 2)) := by
  decide

/-- C8.  For the 4x4 frame of 24 bytes that are all `128` (16 luma bytes and
8 neutral chroma bytes), a live handle and a direct output buffer of 64 bytes,
`nativeProcess` with `edgesOnly = false` returns the elapsed time and leaves
64 output bytes: sixteen pixels `130, 130, 130, 255`.  Each colour byte is
within 2 of `128` and every alpha byte is `255`. -/
theorem uniform_gray_frame (lib : ImgProc) (w : World) (handle : Int) (ctx : ProcessorContext)
    (ob : ByteBuffer) (hlive : handle ≠ 0) (hctx : w.heap handle = some ctx)
    (hdir : ob.direct = true) (hcap : ob.bytes.length = 64) :
    ∃ w1 out, nativeProcess lib w handle ⟨List.replicate 24 128, true⟩ 4 4 (some ob) false =
        ⟨.elapsed, w1, some ⟨true, out⟩⟩ ∧
      out = (List.replicate 16 [130, 130, 130, 255]).flatten ∧
      out.length = 64 ∧
      ∀ p, p < 16 →
        (out.getD (4 * p) 0 ≤ 128 + 2 ∧ 128 - 2 ≤ out.getD (4 * p) 0) ∧
        (out.getD (4 * p + 1) 0 ≤ 128 + 2 ∧ 128 - 2 ≤ out.getD (4 * p + 1) 0) ∧
        (out.getD (4 * p + 2) 0 ≤ 128 + 2 ∧ 128 - 2 ≤ out.getD (4 * p + 2) 0) ∧
        out.getD (4 * p + 3) 0 = 255 := by
  obtain ⟨w1, hr⟩ := @nativeProcess_passthrough lib w handle ctx (List.replicate 24 128) 4 4 ob
    hlive hctx hdir (by decide) (by decide) (by decide) (by decide) (by decide) (by omega)
  simp only [Nat.cast_ofNat] at hr
  have hb : bgr2rgbaBytes (4 * 4) (nv21ToBgr 4 4 (List.replicate 24 128)) =
      (List.replicate 16 [130, 130, 130, 255]).flatten := by decide
  have hdrop : ob.bytes.drop (4 * 4 * 4) = [] := List.drop_of_length_le (by omega)
  rw [hb, hdrop, List.append_nil] at hr
  exact ⟨w1, _, hr, rfl, by decide, by decide⟩

/-- C8, witness: the scenario on a new processor with a zeroed output buffer. -/
theorem uniform_gray_frame_witness :
    ((7 : Int) ≠ 0 ∧ (zeroBuffer 64).bytes.length = 64) ∧
    ∃ w1, nativeProcess blankLib liveWorld 7 ⟨List.replicate 24 128, true⟩ 4 4
        (some (zeroBuffer 64)) false =
      ⟨.elapsed, w1, some ⟨true, (List.replicate 16 [130, 130, 130, 255]).flatten⟩⟩ :=
  ⟨by decide,
    let ⟨w1, _, h, ho, _⟩ := uniform_gray_frame blankLib liveWorld 7 ProcessorContext.fresh
      (zeroBuffer 64) (by decide) liveWorld_heap rfl (by decide)
    ⟨w1, ho ▸ h⟩⟩

/-- C9.  For `width >= 1`, `height >= 1` and an input array of at least
`width * height * 3 / 2` bytes, the NV21 view of line 77, of
`height + height / 2` rows of `width` bytes, spans at most the length of the
array; every element `(r, c)` of the view lies inside the array; the bound
check of the conversion passes; and for an even height the view spans
`width * height * 3 / 2` bytes exactly. -/
theorem nv21_view_in_bounds (nv21Array : JByteArray) (width height : Int) (hw : 1 ≤ width)
    (hh : 1 ≤ height) (hlen : width * height * 3 / 2 ≤ (nv21Array.bytes.length : Int)) :
    nv21Rows height * width ≤ nv21Array.bytes.length ∧
    (∀ r c : Int, 0 ≤ r → r < nv21Rows height → 0 ≤ c → c < width →
      0 ≤ nv21ViewIndex width r c ∧ nv21ViewIndex width r c < nv21Array.bytes.length) ∧
    ¬ (nv21Array.bytes.length < (nv21Rows height).toNat * width.toNat) ∧
    (height % 2 = 0 → nv21Rows height * width = width * height * 3 / 2) := by
  obtain ⟨w, rfl⟩ := Int.eq_ofNat_of_zero_le (show 0 ≤ width by omega)
  obtain ⟨h, rfl⟩ := Int.eq_ofNat_of_zero_le (show 0 ≤ height by omega)
  rw [nv21Rows_natCast]
  generalize nv21Array.bytes.length = L at *
  obtain ⟨k, hk⟩ : ∃ k, h = 2 * k ∨ h = 2 * k + 1 := ⟨h / 2, by omega⟩
  have key : (h + h / 2) * w ≤ L ∧ (h % 2 = 0 → 2 * ((h + h / 2) * w) = w * h * 3) := by
    have hlen1 : w * h * 3 / 2 ≤ L := by exact_mod_cast hlen
    rcases hk with rfl | rfl
    · have e1 : (2 * k + 2 * k / 2) * w = 3 * (k * w) := by
        rw [show 2 * k + 2 * k / 2 = 3 * k by omega]; ring
      have e2 : w * (2 * k) * 3 = 6 * (k * w) := by ring
      rw [e1]; rw [e2] at hlen1 ⊢
      omega
    · have e1 : (2 * k + 1 + (2 * k + 1) / 2) * w = 3 * (k * w) + w := by
        rw [show 2 * k + 1 + (2 * k + 1) / 2 = 3 * k + 1 by omega]; ring
      have e2 : w * (2 * k + 1) * 3 = 6 * (k * w) + 3 * w := by ring
      rw [e1]; rw [e2] at hlen1 ⊢
      omega
  refine ⟨by exact_mod_cast key.1, ?_, ?_, ?_⟩
  · intro r c hr0 hr hc0 hc
    unfold nv21ViewIndex
    have h1 : (((h + h / 2 : Nat) : Int)) * (w : Int) ≤ (L : Int) := by exact_mod_cast key.1
    have h2 : (r + 1) * (w : Int) ≤ ((h + h / 2 : Nat) : Int) * (w : Int) :=
      Int.mul_le_mul_of_nonneg_right (by omega) (by omega)
    have h3 : 0 ≤ r * (w : Int) := Int.mul_nonneg hr0 (by omega)
    have h4 : (r + 1) * (w : Int) = r * w + w := by ring
    omega
  · simp only [Int.toNat_ofNat]
    omega
  · intro hev
    have hev1 : h % 2 = 0 := by omega
    have h5 : ((w : Int) * h * 3) = 2 * (((h + h / 2 : Nat) : Int) * w) := by
      exact_mod_cast (key.2 hev1).symm
    rw [h5]
    omega

/-- C9, witness: a 3x5 frame (odd width and height) with 22 bytes. -/
theorem nv21_view_in_bounds_witness :
    ((1 : Int) ≤ 3 ∧ (1 : Int) ≤ 5 ∧ (3 : Int) * 5 * 3 / 2 ≤ ((grayFrame 22).bytes.length : Int)) ∧
    nv21Rows 5 * 3 ≤ (grayFrame 22).bytes.length :=
  ⟨by decide, (nv21_view_in_bounds (grayFrame 22) 3 5 (by decide) (by decide) (by decide)).1⟩

theorem cvtColorNV21_short (dst : Mat) (a : Nat) :
    cvtColorNV21 [] (nv21Rows 2) 2 dst a = .error .outOfBounds := by
  have e : nv21Rows 2 = 3 := by decide
  rw [e]
  unfold cvtColorNV21
  rw [if_neg (by decide), if_neg (by decide)]
  simp

/-- C10.  The length of the input array takes no part in the precondition
checks: with a live handle, a direct output buffer and a mappable input,
`nativeProcess` is not rejected with the zero of a failed check whatever the
bytes, width and height.  In particular the empty array with width 2 and
height 2 (`0 < 2 * 2 * 3 / 2`) is not rejected: the buffers are sized for the
2x2 frame and the conversion is entered on a view of `3 * 2` bytes, past the
end of the empty array. -/
theorem input_length_not_checked (lib : ImgProc) (w : World) (handle : Int)
    (ctx : ProcessorContext) (ob : ByteBuffer) (edgesOnly : Bool) (hlive : handle ≠ 0)
    (hctx : w.heap handle = some ctx) (hdir : ob.direct = true) :
    (∀ (bytes : List Nat) (width height : Int) (why : Rejection),
      (nativeProcess lib w handle ⟨bytes, true⟩ width height (some ob) edgesOnly).ret
        ≠ .zero why) ∧
    ((([] : List Nat).length : Int) < 2 * 2 * 3 / 2 ∧
      (([] : List Nat).length : Int) < nv21Rows 2 * 2) ∧
    (nativeProcess lib w handle ⟨[], true⟩ 2 2 (some ob) edgesOnly).ret
      = .fault .outOfBounds ∧
    ∃ ctx1, (nativeProcess lib w handle ⟨[], true⟩ 2 2 (some ob) edgesOnly).world.heap handle
        = some ctx1 ∧
      ctx1.bgr.empty = false ∧ ctx1.bgr.rows = 2 ∧ ctx1.bgr.cols = 2 := by
  refine ⟨fun bytes width height why =>
    nativeProcess_not_zero lib w handle ⟨bytes, true⟩ width height ob edgesOnly hlive hdir rfl why,
    by decide, ?_⟩
  have hs := @sizeBuffers_pos ctx w.allocs 2 2 (by decide)
  simp only [Nat.cast_ofNat] at hs
  simp only [nativeProcess, fromHandle, hlive, hdir, hctx, hs, cvtColorNV21_short, if_false,
    Bool.true_eq_false]
  refine ⟨trivial, _, Function.update_same _ _ _, ?_⟩
  cases hn : needsRealloc ctx 2 2 with
  | true => simp [Mat.empty]
  | false =>
    obtain ⟨h1, h2, h3⟩ := needsRealloc_false hn
    simp only [Bool.false_eq_true, if_false]
    exact ⟨h1, by omega, by omega⟩

/-- C10, witness: the empty array on a new processor. -/
theorem input_length_not_checked_witness :
    ((7 : Int) ≠ 0 ∧ (zeroBuffer 16).direct = true) ∧
    (nativeProcess blankLib liveWorld 7 ⟨[], true⟩ 2 2 (some (zeroBuffer 16)) false).ret
      = .fault .outOfBounds :=
  ⟨by decide,
    (input_length_not_checked blankLib liveWorld 7 ProcessorContext.fresh (zeroBuffer 16) false
      (by decide) liveWorld_heap rfl).2.2.1⟩

end EdgeProcessor
